import Mathlib

/-!
Verification development for the vendored particle-emitter library
(src/www/src/vendors/particle-emitter.js, a copy of pixi particle-emitter
v6.0.0).  The JavaScript source is shallowly embedded: numbers are modeled
as rationals, or as reals where square roots and trigonometry appear; the
linked particle lists become Lean lists; Math.random becomes an explicit
stream of draws consumed by an index counter.  Display-tree operations
(addChild, removeChild), texture handles and the shared ticker are
external side effects and are kept out of the state.
-/

namespace PE

/-! ## Property lists (PropertyNode and PropertyList)

A keyframe chain is the first node plus the list of the remaining nodes;
the isStepped and ease flags live on the first node in the source and are
kept on the chain record here. -/

/-- One keyframe node: a stored value and a time stamp, as in PropertyNode. -/
structure KNode (α : Type) (V : Type) where
  value : V
  time : α

/-- Apply the optional custom ease of a list to the interpolation
parameter, as done at the top of every interpolation function
(this.ease ? this.ease(lerp) : lerp). -/
def applyEase {α : Type} (ease : Option (α → α)) (lerp : α) : α :=
  match ease with
  | none => lerp
  | some f => f lerp

/-- The chain walk shared by intValueStepped and intColorStepped: advance
while a next node exists and the parameter is beyond its time
(while current.next and lerp greater than current.next.time). -/
def steppedWalk {α V : Type} [LinearOrder α] (cur : KNode α V) :
    List (KNode α V) → α → KNode α V
  | [], _ => cur
  | nxt :: rest, lerp => if nxt.time < lerp then steppedWalk nxt rest lerp else cur

/-- intValueStepped from the source. -/
def intValueStepped {α : Type} [LinearOrder α] (ease : Option (α → α))
    (first : KNode α α) (rest : List (KNode α α)) (lerp : α) : α :=
  (steppedWalk first rest (applyEase ease lerp)).value

/-- RGB components as produced by hexToRGB: integers in 0..255. -/
structure Rgb where
  r : ℕ
  g : ℕ
  b : ℕ
deriving DecidableEq

/-- combineRGBComponents: the packed color (r shifted by 16) or
(g shifted by 8) or b. -/
def combineRGBComponents (r g b : ℕ) : ℕ :=
  (r <<< 16) ||| (g <<< 8) ||| b

/-- intColorStepped from the source: the same walk, then the selected
keyframe color is packed, with no channel blending. -/
def intColorStepped {α : Type} [LinearOrder α] (ease : Option (α → α))
    (first : KNode α Rgb) (rest : List (KNode α Rgb)) (lerp : α) : ℕ :=
  let c := (steppedWalk first rest (applyEase ease lerp)).value
  combineRGBComponents c.r c.g c.b

/-- intValueSimple from the source: the two-node fast path, a direct
linear interpolation between the first node and its successor. -/
def intValueSimple {α : Type} [LinearOrderedField α] (ease : Option (α → α))
    (first second : KNode α α) (lerp : α) : α :=
  let l := applyEase ease lerp
  (second.value - first.value) * l + first.value

/-- Walk of the complex interpolators: advance while the parameter is
beyond the next time, and return the bracketing pair.  Running off the
end of the chain is a null dereference in the JavaScript source and is
modeled as none. -/
def complexWalk {α V : Type} [LinearOrder α] (cur : KNode α V) :
    List (KNode α V) → α → Option (KNode α V × KNode α V)
  | [], _ => none
  | nxt :: rest, lerp =>
    if nxt.time < lerp then complexWalk nxt rest lerp else some (cur, nxt)

/-- intValueComplex from the source: locate the bracketing segment,
renormalize the parameter to it and interpolate linearly. -/
def intValueComplex {α : Type} [LinearOrderedField α] (ease : Option (α → α))
    (first : KNode α α) (rest : List (KNode α α)) (lerp : α) : Option α :=
  let l := applyEase ease lerp
  match complexWalk first rest l with
  | none => none
  | some (cur, nxt) =>
    let l2 := (l - cur.time) / (nxt.time - cur.time)
    some ((nxt.value - cur.value) * l2 + cur.value)

/-- The three interpolation functions PropertyList.reset can select. -/
inductive InterpMode
  | simple
  | stepped
  | complex
deriving DecidableEq

/-- A scalar property list: the first node, the rest of the chain, and
the flags PropertyList.reset reads (first.isStepped and first.ease). -/
structure PList (α : Type) where
  first : KNode α α
  rest : List (KNode α α)
  isStepped : Bool
  ease : Option (α → α)

/-- The interpolation mode PropertyList.reset selects: the simple path
when a second node exists with time at least 1, else the stepped path
when the list is flagged stepped, else the complex path. -/
def PList.resetMode {α : Type} [LinearOrderedField α] (d : PList α) : InterpMode :=
  match d.rest with
  | n :: _ =>
    if 1 ≤ n.time then .simple
    else if d.isStepped then .stepped else .complex
  | [] => if d.isStepped then .stepped else .complex

/-- interpolate as dispatched by PropertyList.reset for scalar lists.
In simple mode the chain is known to have a second node; headD never
falls back there. -/
def PList.interpolate {α : Type} [LinearOrderedField α] (d : PList α) (lerp : α) :
    Option α :=
  match d.resetMode with
  | .simple => some (intValueSimple d.ease d.first (d.rest.headD d.first) lerp)
  | .stepped => some (intValueStepped d.ease d.first d.rest lerp)
  | .complex => intValueComplex d.ease d.first d.rest lerp

/-- Stated from the spec, for comparison with the code: the latest
keyframe whose time is at or before the fraction, falling back to the
first node. -/
def lastAtOrBefore {α V : Type} [LinearOrder α] (first : KNode α V)
    (rest : List (KNode α V)) (lerp : α) : KNode α V :=
  ((rest.filter (fun n => decide (n.time ≤ lerp))).getLast?).getD first

/-- The node the stepped walk actually selects: the latest keyframe whose
time is strictly before the fraction, falling back to the first node. -/
def lastStrictBefore {α V : Type} [LinearOrder α] (first : KNode α V)
    (rest : List (KNode α V)) (lerp : α) : KNode α V :=
  ((rest.filter (fun n => decide (n.time < lerp))).getLast?).getD first

/-! ## ParticleUtils helpers over the reals -/

/-- rotatePoint from ParticleUtils: rotate a point around the origin.
A zero angle is falsy in JavaScript and returns the point untouched. -/
noncomputable def rotatePointR (angle : ℝ) (p : ℝ × ℝ) : ℝ × ℝ :=
  if angle = 0 then p
  else (p.1 * Real.cos angle - p.2 * Real.sin angle,
        p.1 * Real.sin angle + p.2 * Real.cos angle)

/-- length from ParticleUtils: the magnitude sqrt of (x times x plus y times y). -/
noncomputable def lengthPt (x y : ℝ) : ℝ := Real.sqrt (x * x + y * y)

/-- Math.atan2, via the complex argument of (x plus i y). -/
noncomputable def jsAtan2 (y x : ℝ) : ℝ := Complex.arg ⟨x, y⟩

/-! ## AccelerationBehavior (type moveAcceleration)

The particle sprite fields this behavior touches (position, rotation)
and its scratch velocity are flattened into one record. -/

/-- The configuration fields read by AccelerationBehavior; maxSpeed
defaults to 0 (config.maxSpeed with fallback 0). -/
structure AccelBehavior where
  minStart : ℝ
  maxStart : ℝ
  accelX : ℝ
  accelY : ℝ
  rotate : Bool
  maxSpeed : ℝ

/-- The particle state AccelerationBehavior reads and writes. -/
structure AccelParticle where
  x : ℝ
  y : ℝ
  vx : ℝ
  vy : ℝ
  rotation : ℝ

/-- AccelerationBehavior.initParticles for one particle of the wave:
draw a speed uniformly from minStart to maxStart (rnd is the Math.random
draw) and rotate the vector (speed, 0) by the spawn rotation. -/
noncomputable def accelInitParticle (b : AccelBehavior) (rnd : ℝ)
    (p : AccelParticle) : AccelParticle :=
  let speed := rnd * (b.maxStart - b.minStart) + b.minStart
  let v := rotatePointR p.rotation (speed, 0)
  { p with vx := v.1, vy := v.2 }

/-- AccelerationBehavior.updateParticle: accelerate the velocity, clamp
its magnitude to maxSpeed when a nonzero maxSpeed is configured (zero is
falsy), and advance the position by the midpoint of the old and new
velocity over the timestep. -/
noncomputable def accelUpdateParticle (b : AccelBehavior) (p : AccelParticle)
    (dt : ℝ) : AccelParticle :=
  let oldVX := p.vx
  let oldVY := p.vy
  let nvx := p.vx + b.accelX * dt
  let nvy := p.vy + b.accelY * dt
  let v :=
    if b.maxSpeed ≠ 0 then
      let currentSpeed := lengthPt nvx nvy
      if b.maxSpeed < currentSpeed then
        (nvx * (b.maxSpeed / currentSpeed), nvy * (b.maxSpeed / currentSpeed))
      else (nvx, nvy)
    else (nvx, nvy)
  { x := p.x + ((oldVX + v.1) / 2) * dt
    y := p.y + ((oldVY + v.2) / 2) * dt
    vx := v.1
    vy := v.2
    rotation := if b.rotate then jsAtan2 v.2 v.1 else p.rotation }

/-! ## PathBehavior (type movePath)

parsePath builds a function from an expression string through a regex
whitelist and dynamic code generation (new Function); that generation
step is not shallowly embeddable, so the constructor below receives the
outcome of the parse: some f when parsing produced a function, none when
parsePath threw and the catch block ran (the source then stores null in
this.path).  A path given directly as a function, and a missing path,
are embedded exactly. -/

/-- The path entry of a movePath configuration: either a function value,
or an expression string represented by the outcome of parsePath. -/
inductive PathSource
  | fn (f : ℝ → ℝ)
  | expr (parseResult : Option (ℝ → ℝ))

/-- The PathBehavior state: this.path is none exactly when the source
holds null (a caught parse failure). -/
structure PathBehavior where
  path : Option (ℝ → ℝ)
  list : PList ℝ
  minMult : ℝ

/-- The PathBehavior constructor: a function path is stored as is, an
expression path stores the parse outcome (null on a caught parse error),
and a missing path stores the identity function.  The speed property
list arrives already in chain form (PropertyNode.createList applied to
config.speed), and minMult defaults to 1. -/
def mkPathBehavior (cfgPath : Option PathSource) (speed : PList ℝ)
    (minMult : Option ℝ) : PathBehavior :=
  { path :=
      match cfgPath with
      | some (.fn f) => some f
      | some (.expr r) => r
      | none => some (fun x => x)
    list := speed
    minMult := minMult.getD 1 }

/-- The particle state PathBehavior reads and writes: sprite position,
the agePercent driving the speed list, and the behavior scratch fields
set by initParticles. -/
structure PathParticle where
  x : ℝ
  y : ℝ
  rotation : ℝ
  agePercent : ℝ
  initRotation : ℝ
  initPosX : ℝ
  initPosY : ℝ
  movement : ℝ
  speedMult : ℝ

/-- PathBehavior.initParticles for one particle: record the spawn
rotation and position, zero the accumulated movement, and draw the speed
multiplier from minMult to 1 (rnd is the Math.random draw). -/
def pathInitParticle (b : PathBehavior) (rnd : ℝ) (p : PathParticle) :
    PathParticle :=
  { p with
    initRotation := p.rotation
    initPosX := p.x
    initPosY := p.y
    movement := 0
    speedMult := rnd * (1 - b.minMult) + b.minMult }

/-- PathBehavior.updateParticle: accumulate forward movement from the
interpolated speed, evaluate the path function at the new movement,
rotate by the spawn rotation and offset from the spawn position.  The
result is none when the computation throws in JavaScript: either the
speed list walk dereferences null, or this.path is null after a failed
parse and is called as a function. -/
noncomputable def pathUpdateParticle (b : PathBehavior) (p : PathParticle)
    (dt : ℝ) : Option PathParticle :=
  match b.list.interpolate p.agePercent with
  | none => none
  | some sv =>
    let speed := sv * p.speedMult
    let movement := p.movement + speed * dt
    match b.path with
    | none => none
    | some f =>
      let hx := movement
      let hy := f hx
      let h := rotatePointR p.initRotation (hx, hy)
      some { p with
        movement := movement
        x := p.initPosX + h.1
        y := p.initPosY + h.2 }

/-! ## The Emitter

Times, ages and positions are rationals.  A particle carries its aging
fields concretely; every other per-particle field (sprite position,
rotation, alpha, tint, scale, texture and the behavior-owned config bag)
is collected in an abstract scratch value of type sigma, because the
shipped behaviors read the aging fields but write only those other
fields.  Behaviors are therefore embedded as functions that read the
particle and return a new scratch value, plus a death flag for update
behaviors, matching the updateParticle protocol.  Pooled particles are
represented by their scratch values (the pool is a LIFO stack, as in the
source, where recycle pushes at poolFirst); Particle.init resets the
aging fields concretely and the sprite fields through the resetScratch
parameter of the model context. -/

/-- The aging state of one particle (Particle fields age, maxLife,
oneOverLife, agePercent), plus the abstract scratch. -/
structure Particle (σ : Type) where
  age : ℚ
  maxLife : ℚ
  oneOverLife : ℚ
  agePercent : ℚ
  scratch : σ

/-- An update behavior: reads the particle and the delta, returns the new
scratch and the death flag returned by updateParticle. -/
def UpdateB (σ : Type) : Type := Particle σ → ℚ → σ × Bool

/-- An init behavior, applied to each particle of a freshly spawned wave. -/
def InitB (σ : Type) : Type := Particle σ → σ

/-- Model context: the Math.random stream, the PositionParticle scratch
action (rotating the sprite position by the emitter rotation and
offsetting it by the emission position, which lives in the abstract
scratch), the sprite-field reset performed by Particle.init, and the
scratch of a newly constructed Particle. -/
structure Ctx (σ : Type) where
  rng : ℕ → ℚ
  posApply : ℚ → ℚ → ℚ → σ → σ
  resetScratch : σ → σ
  newScratch : σ

/-- The Emitter state.  The display parent is external and modeled by a
presence flag; the pending completion callback by a Boolean.  The init
behaviors are split at the PositionParticle marker that Emitter.init
inserts and sorts into the list: those ordered before it (spawn order)
and those ordered after it. -/
structure EmitterState (σ : Type) where
  active : List (Particle σ)
  pool : List σ
  particleCount : ℕ
  minLifetime : ℚ
  maxLifetime : ℚ
  customEase : Option (ℚ → ℚ)
  frequency : ℚ
  spawnChance : ℚ
  particlesPerWave : ℕ
  maxParticles : ℕ
  emitterLifetime : ℚ
  emitterLife : ℚ
  spawnTimer : ℚ
  emitFlag : Bool
  spawnPosX : ℚ
  spawnPosY : ℚ
  ownerPosX : ℚ
  ownerPosY : ℚ
  rotation : ℚ
  prevEmitterPosX : ℚ
  prevEmitterPosY : ℚ
  prevPosIsValid : Bool
  posChanged : Bool
  parentExists : Bool
  addAtBack : Bool
  autoUpdate : Bool
  destroyWhenComplete : Bool
  completeCallback : Bool
  spawnInitBehaviors : List (InitB σ)
  lateInitBehaviors : List (InitB σ)
  updateBehaviors : List (UpdateB σ)
  rngIdx : ℕ

/-- The emit setter: set the flag and reset the runtime emitter life from
the configured emitterLifetime. -/
def setEmit {σ : Type} (s : EmitterState σ) (v : Bool) : EmitterState σ :=
  { s with emitFlag := v, emitterLife := s.emitterLifetime }

/-- The frequency setter: a value that is a number greater than 0 is
stored, anything else (none models a non-number) becomes 1. -/
def setFrequency {σ : Type} (s : EmitterState σ) (v : Option ℚ) : EmitterState σ :=
  { s with
    frequency :=
      match v with
      | some q => if 0 < q then q else 1
      | none => 1 }

/-- Run the update behaviors on a particle in order, stopping at the
first one whose updateParticle returns true; each behavior writes its
scratch before the flag is checked. -/
def runUB {σ : Type} (ubs : List (UpdateB σ)) (p : Particle σ) (dt : ℚ) :
    Particle σ × Bool :=
  match ubs with
  | [] => (p, false)
  | b :: rest =>
    let r := b p dt
    let p1 := { p with scratch := r.1 }
    if r.2 then (p1, true) else runUB rest p1 dt

/-- Apply the optional emitter ease to an age fraction, as done in both
agePercent computations of Emitter.update.  The dual one-argument and
four-argument calling conventions of the source collapse to one function
here. -/
def applyEaseQ (ce : Option (ℚ → ℚ)) (x : ℚ) : ℚ :=
  match ce with
  | none => x
  | some f => f x

/-- The aging phase of Emitter.update: each active particle ages by
delta; a particle whose new age exceeds maxLife or is negative is
recycled (its scratch pushed on the pool, the count decremented), and a
surviving particle gets its agePercent recomputed and the update
behaviors run, recycling on a death flag.  Returns the surviving active
list, the new pool and the new count. -/
def agePhase {σ : Type} (ubs : List (UpdateB σ)) (ce : Option (ℚ → ℚ)) (δ : ℚ)
    (l : List (Particle σ)) (pool : List σ) (count : ℕ) :
    List (Particle σ) × List σ × ℕ :=
  match l, pool, count with
  | [], pool, count => ([], pool, count)
  | p :: rest, pool, count =>
    let p1 : Particle σ := { p with age := p.age + δ }
    if p1.maxLife < p1.age ∨ p1.age < 0 then
      agePhase ubs ce δ rest (p1.scratch :: pool) (count - 1)
    else
      let p2 : Particle σ := { p1 with agePercent := applyEaseQ ce (p1.age * p1.oneOverLife) }
      let r := runUB ubs p2 δ
      if r.2 then agePhase ubs ce δ rest (r.1.scratch :: pool) (count - 1)
      else
        match agePhase ubs ce δ rest pool count with
        | (surv, pool2, count2) => (r.1 :: surv, pool2, count2)

/-- The lifetime draw shared by both wave loops: the exact bound when the
lifetime bounds coincide (no draw), otherwise a uniform draw between
them, consuming one random value. -/
def lifetimeDraw {σ : Type} (ctx : Ctx σ) (minL maxL : ℚ) (idx : ℕ) : ℚ × ℕ :=
  if minL = maxL then (minL, idx)
  else (ctx.rng idx * (maxL - minL) + minL, idx + 1)

/-- Particle procurement shared by both wave loops: reuse the pool head
when the pool is not empty, else allocate a new particle; either way
Particle.init resets the sprite fields (resetScratch). -/
def poolTake {σ : Type} (ctx : Ctx σ) (pool : List σ) : σ × List σ :=
  match pool with
  | s :: restP => (ctx.resetScratch s, restP)
  | [] => (ctx.resetScratch ctx.newScratch, [])

/-- The wave-creation loop of Emitter.update, iterating over the slot
count computed once as min(particlesPerWave, maxParticles minus
particleCount).  Per slot: the spawnChance draw (taken only when
spawnChance is below 1), the lifetime draw (no draw when the bounds are
equal), the skip of particles that would already outlive the time owed
from the negative spawn timer, and particle creation from the pool head
or a new allocation, with Particle.init resetting the aging fields.
Returns the wave in spawn order with the new pool, count and draw index. -/
def makeWave {σ : Type} (ctx : Ctx σ) (sc minL maxL timer : ℚ)
    (slots : ℕ) (pool : List σ) (count : ℕ) (idx : ℕ) :
    List (Particle σ) × List σ × ℕ × ℕ :=
  match slots, pool, count, idx with
  | 0, pool, count, idx => ([], pool, count, idx)
  | n + 1, pool, count, idx =>
    if sc < 1 ∧ sc ≤ ctx.rng idx then
      makeWave ctx sc minL maxL timer n pool count (idx + 1)
    else
      let idx1 := if sc < 1 then idx + 1 else idx
      let ld := lifetimeDraw ctx minL maxL idx1
      if ld.1 ≤ -timer then
        makeWave ctx sc minL maxL timer n pool count ld.2
      else
        let pp := poolTake ctx pool
        let part : Particle σ :=
          { age := 0, maxLife := ld.1, oneOverLife := 1 / ld.1, agePercent := 0,
            scratch := pp.1 }
        match makeWave ctx sc minL maxL timer n pp.2 (count + 1) ld.2 with
        | (wave, pool2, count2, idx2) => (part :: wave, pool2, count2, idx2)

/-- Run one init behavior across a wave. -/
def applyInitB {σ : Type} (b : InitB σ) (wave : List (Particle σ)) :
    List (Particle σ) :=
  wave.map (fun p => { p with scratch := b p })

/-- Run a list of init behaviors across a wave, in order. -/
def applyInits {σ : Type} (bs : List (InitB σ)) (wave : List (Particle σ)) :
    List (Particle σ) :=
  bs.foldl (fun w b => applyInitB b w) wave

/-- The PositionParticle step interleaved among the init behaviors in
Emitter.update: apply the emitter rotation and emission position to the
sprite scratch, back-date the age by the owed time (minus the spawn
timer) and recompute agePercent through the emitter ease. -/
def positionStep {σ : Type} (posApply : ℚ → ℚ → ℚ → σ → σ) (rot emitPosX emitPosY
    backdate : ℚ) (ce : Option (ℚ → ℚ)) (wave : List (Particle σ)) :
    List (Particle σ) :=
  wave.map (fun p =>
    let p1 := { p with
      scratch := posApply rot emitPosX emitPosY p.scratch
      age := p.age + backdate }
    { p1 with agePercent := applyEaseQ ce (p1.age * p1.oneOverLife) })

/-- The catch-up pass over a fresh wave: run the update behaviors once
with the owed time as delta, recycling any particle whose behavior
signals death. -/
def catchUp {σ : Type} (ubs : List (UpdateB σ)) (dt : ℚ)
    (l : List (Particle σ)) (pool : List σ) (count : ℕ) :
    List (Particle σ) × List σ × ℕ :=
  match l, pool, count with
  | [], pool, count => ([], pool, count)
  | p :: rest, pool, count =>
    let r := runUB ubs p dt
    if r.2 then catchUp ubs dt rest (r.1.scratch :: pool) (count - 1)
    else
      match catchUp ubs dt rest pool count with
      | (surv, pool2, count2) => (r.1 :: surv, pool2, count2)

/-- The spawn loop of Emitter.update (while spawnTimer is at most 0),
with an explicit iteration budget: none models a loop that runs beyond
the budget.  Each iteration handles the finite emitter lifetime (whose
exhaustion zeroes the timer and runs the emit setter with false), the
particle-count cap (which just advances the timer), and otherwise spawns
one wave at the interpolated emission position, runs the init behaviors
with the PositionParticle step between the two sorted halves, runs the
catch-up pass, appends the survivors to the active list, and advances the
timer by one frequency interval. -/
def spawnLoop {σ : Type} (ctx : Ctx σ) (δ prevX prevY curX curY : ℚ) :
    ℕ → EmitterState σ → Option (EmitterState σ)
  | 0, s => if 0 < s.spawnTimer then some s else none
  | n + 1, s =>
    if 0 < s.spawnTimer then some s
    else
        let s1 :=
          if 0 ≤ s.emitterLife then { s with emitterLife := s.emitterLife - s.frequency }
          else s
        if 0 ≤ s.emitterLife ∧ s1.emitterLife ≤ 0 then
          some (setEmit { s1 with spawnTimer := 0, emitterLife := 0 } false)
        else if s1.maxParticles ≤ s1.particleCount then
          spawnLoop ctx δ prevX prevY curX curY n
            { s1 with spawnTimer := s1.spawnTimer + s1.frequency }
        else
          let lerp := 1 + s1.spawnTimer / δ
          let emitPosX :=
            if s1.prevPosIsValid ∧ s1.posChanged then (curX - prevX) * lerp + prevX
            else curX
          let emitPosY :=
            if s1.prevPosIsValid ∧ s1.posChanged then (curY - prevY) * lerp + prevY
            else curY
          let slots := min s1.particlesPerWave (s1.maxParticles - s1.particleCount)
          match makeWave ctx s1.spawnChance s1.minLifetime s1.maxLifetime
              s1.spawnTimer slots s1.pool s1.particleCount s1.rngIdx with
          | (wave, pool1, count1, idx1) =>
            let wave1 := applyInits s1.spawnInitBehaviors wave
            let wave2 := positionStep ctx.posApply s1.rotation emitPosX emitPosY
              (-s1.spawnTimer) s1.customEase wave1
            let wave3 := applyInits s1.lateInitBehaviors wave2
            match catchUp s1.updateBehaviors (-s1.spawnTimer) wave3 pool1 count1 with
            | (surv, pool2, count2) =>
              spawnLoop ctx δ prevX prevY curX curY n
                { s1 with
                  active := s1.active ++ surv
                  pool := pool2
                  particleCount := count2
                  rngIdx := idx1
                  spawnTimer := s1.spawnTimer + s1.frequency }

/-- Emitter.cleanup: recycle every active particle (pushing its scratch
on the pool head in iteration order), clear the active list and zero the
count. -/
def cleanupE {σ : Type} (s : EmitterState σ) : EmitterState σ :=
  { s with
    active := []
    pool := s.active.foldl (fun pl p => p.scratch :: pl) s.pool
    particleCount := 0 }

/-- Emitter.destroy: drop the ticker registration, clean up the active
particles, release the whole pool, null the parent and the callback, and
clear the behavior lists.  The nulling of the JavaScript position and
ease references is not observable in this value model. -/
def destroyE {σ : Type} (s : EmitterState σ) : EmitterState σ :=
  let sc := cleanupE { s with autoUpdate := false }
  { sc with
    pool := []
    parentExists := false
    completeCallback := false
    spawnInitBehaviors := []
    lateInitBehaviors := []
    updateBehaviors := [] }

/-- Emitter.update with delta in seconds and an iteration budget for the
spawn loop: bail out when no parent is set, age the existing particles,
run the spawn loop when emitting (clamping a negative delta out of the
timer decrement), commit position tracking, and handle completion (fire
the pending callback and optionally self-destroy). -/
def updateE {σ : Type} (ctx : Ctx σ) (δ : ℚ) (fuel : ℕ) (s : EmitterState σ) :
    Option (EmitterState σ) :=
  if s.parentExists = false then some s
  else
    match agePhase s.updateBehaviors s.customEase δ s.active s.pool s.particleCount with
    | (surv, pool1, count1) =>
      let s1 := { s with active := surv, pool := pool1, particleCount := count1 }
      let prevX := s1.prevEmitterPosX
      let prevY := s1.prevEmitterPosY
      let curX := s1.ownerPosX + s1.spawnPosX
      let curY := s1.ownerPosY + s1.spawnPosY
      let s2opt :=
        if s1.emitFlag then
          spawnLoop ctx δ prevX prevY curX curY fuel
            { s1 with spawnTimer := s1.spawnTimer - (if δ < 0 then 0 else δ) }
        else some s1
      match s2opt with
      | none => none
      | some s2 =>
        let s3 :=
          if s2.posChanged then
            { s2 with
              prevEmitterPosX := curX
              prevEmitterPosY := curY
              prevPosIsValid := true
              posChanged := false }
          else s2
        some
          (if s3.emitFlag = false ∧ s3.active.isEmpty = true then
            let s4 : EmitterState σ := { s3 with completeCallback := false }
            if s3.destroyWhenComplete then destroyE s4 else s4
          else s3)

/-- The wave-creation loop of Emitter.emitNow.  It differs from the
update-loop wave: the particle is taken from the pool before the
lifetime draw, and there is no skip of particles that would already be
past their lifetime. -/
def makeWaveNow {σ : Type} (ctx : Ctx σ) (sc minL maxL : ℚ)
    (slots : ℕ) (pool : List σ) (count : ℕ) (idx : ℕ) :
    List (Particle σ) × List σ × ℕ × ℕ :=
  match slots, pool, count, idx with
  | 0, pool, count, idx => ([], pool, count, idx)
  | n + 1, pool, count, idx =>
    if sc < 1 ∧ sc ≤ ctx.rng idx then
      makeWaveNow ctx sc minL maxL n pool count (idx + 1)
    else
      let idx1 := if sc < 1 then idx + 1 else idx
      let pp := poolTake ctx pool
      let ld := lifetimeDraw ctx minL maxL idx1
      let part : Particle σ :=
        { age := 0, maxLife := ld.1, oneOverLife := 1 / ld.1, agePercent := 0,
          scratch := pp.1 }
      match makeWaveNow ctx sc minL maxL n pp.2 (count + 1) ld.2 with
      | (wave, pool2, count2, idx2) => (part :: wave, pool2, count2, idx2)

/-- Emitter.emitNow: spawn exactly one wave at the current emission
position, ignoring the timer, frequency and lifetime state but
respecting spawnChance and the capacity cap, run the init behaviors with
the PositionParticle rotation and offset (no age back-dating), and run
no catch-up pass. -/
def emitNowE {σ : Type} (ctx : Ctx σ) (s : EmitterState σ) : EmitterState σ :=
  let emitPosX := s.ownerPosX + s.spawnPosX
  let emitPosY := s.ownerPosY + s.spawnPosY
  let slots := min s.particlesPerWave (s.maxParticles - s.particleCount)
  match makeWaveNow ctx s.spawnChance s.minLifetime s.maxLifetime slots s.pool
      s.particleCount s.rngIdx with
  | (wave, pool1, count1, idx1) =>
    let wave1 := applyInits s.spawnInitBehaviors wave
    let wave2 := wave1.map (fun p =>
      { p with scratch := ctx.posApply s.rotation emitPosX emitPosY p.scratch })
    let wave3 := applyInits s.lateInitBehaviors wave2
    { s with
      active := s.active ++ wave3
      pool := pool1
      particleCount := count1
      rngIdx := idx1 }

/-- The configuration consumed by Emitter.init.  Optional numeric fields
model fields that may be absent (undefined) in the JavaScript object;
the behavior lists arrive already constructed and sorted, split at the
PositionParticle marker. -/
structure ConfigE (σ : Type) where
  lifetimeMin : ℚ
  lifetimeMax : ℚ
  ease : Option (ℚ → ℚ)
  particlesPerWave : Option ℕ
  frequency : Option ℚ
  spawnChance : Option ℚ
  emitterLifetime : Option ℚ
  maxParticles : Option ℕ
  addAtBack : Bool
  pos : Option (ℚ × ℚ)
  emit : Option Bool
  autoUpdate : Bool
  spawnInitBehaviors : List (InitB σ)
  lateInitBehaviors : List (InitB σ)
  updateBehaviors : List (UpdateB σ)

/-- Emitter.init: clean up existing particles, then set every emitter
property from the configuration with the validations of the source: a
particlesPerWave above 1 is kept (else 1), the frequency goes through
its validating setter, a spawnChance that is a number above 0 is kept
(else 1), a falsy emitterLifetime becomes minus 1, a maxParticles above 0
is kept (else 1000), the spawn position is copied (else zeroed) and also
becomes the previous emitter position with validity cleared, the spawn
timer is zeroed and the emit setter runs with the configured flag
(defaulting to true when absent). -/
def initE {σ : Type} (s : EmitterState σ) (cfg : ConfigE σ) : EmitterState σ :=
  let sc := cleanupE s
  let px := (cfg.pos.getD (0, 0)).1
  let py := (cfg.pos.getD (0, 0)).2
  let s1 : EmitterState σ :=
    { sc with
      minLifetime := cfg.lifetimeMin
      maxLifetime := cfg.lifetimeMax
      customEase := cfg.ease
      particlesPerWave :=
        match cfg.particlesPerWave with
        | some v => if 1 < v then v else 1
        | none => 1
      spawnChance :=
        match cfg.spawnChance with
        | some v => if 0 < v then v else 1
        | none => 1
      emitterLifetime :=
        match cfg.emitterLifetime with
        | some v => if v = 0 then -1 else v
        | none => -1
      maxParticles :=
        match cfg.maxParticles with
        | some v => if 0 < v then v else 1000
        | none => 1000
      addAtBack := cfg.addAtBack
      rotation := 0
      ownerPosX := 0
      ownerPosY := 0
      spawnPosX := px
      spawnPosY := py
      prevEmitterPosX := px
      prevEmitterPosY := py
      prevPosIsValid := false
      spawnTimer := 0
      autoUpdate := cfg.autoUpdate
      spawnInitBehaviors := cfg.spawnInitBehaviors
      lateInitBehaviors := cfg.lateInitBehaviors
      updateBehaviors := cfg.updateBehaviors }
  setEmit (setFrequency s1 cfg.frequency) (cfg.emit.getD true)

/-- The state of a freshly constructed Emitter before init runs: the
field defaults of the constructor, with the given display parent. -/
def baseState (σ : Type) (hasParent : Bool) : EmitterState σ :=
  { active := []
    pool := []
    particleCount := 0
    minLifetime := 0
    maxLifetime := 0
    customEase := none
    frequency := 1
    spawnChance := 1
    particlesPerWave := 1
    maxParticles := 1000
    emitterLifetime := -1
    emitterLife := -1
    spawnTimer := 0
    emitFlag := false
    spawnPosX := 0
    spawnPosY := 0
    ownerPosX := 0
    ownerPosY := 0
    rotation := 0
    prevEmitterPosX := 0
    prevEmitterPosY := 0
    prevPosIsValid := false
    posChanged := false
    parentExists := hasParent
    addAtBack := false
    autoUpdate := false
    destroyWhenComplete := false
    completeCallback := false
    spawnInitBehaviors := []
    lateInitBehaviors := []
    updateBehaviors := []
    rngIdx := 0 }

/-- One externally driven operation on an emitter: an update tick with
its delta and loop budget, or an emitNow call. -/
inductive EmitterOp
  | tick (δ : ℚ) (fuel : ℕ)
  | burst

/-- Apply one operation. -/
def runOp {σ : Type} (ctx : Ctx σ) (s : EmitterState σ) :
    EmitterOp → Option (EmitterState σ)
  | .tick δ fuel => updateE ctx δ fuel s
  | .burst => some (emitNowE ctx s)

/-- Apply a sequence of operations, propagating a spent loop budget. -/
def runOps {σ : Type} (ctx : Ctx σ) :
    List EmitterOp → EmitterState σ → Option (EmitterState σ)
  | [], s => some s
  | op :: rest, s =>
    match runOp ctx s op with
    | none => none
    | some s1 => runOps ctx rest s1

/-! ## upgradeConfig: the legacy flat schema translated to the behaviors
schema.

The configuration is one record whose optional fields model possibly
absent JavaScript keys.  Art payloads (textures, animation frame lists)
are opaque and only their shape drives branching; the upgrade returns
none where the JavaScript function would throw (reading a property of an
undefined config.speed or config.spawnCircle). -/

/-- A keyframe entry of a legacy value list. -/
structure VT where
  value : ℚ
  time : ℚ
deriving DecidableEq

/-- A keyframe entry of a legacy color list (hex string values). -/
structure VTColor where
  value : String
  time : ℚ
deriving DecidableEq

/-- A legacy scalar property: either the deprecated start and end form
(whose object can carry its own minimum multiplier, read only for speed
and scale) or the list form. -/
inductive LegacyScalar
  | startEnd (startV endV : ℚ) (multiplier : Option ℚ)
  | valueList (entries : List VT)
deriving DecidableEq

/-- A legacy color property: start and end form or list form. -/
inductive LegacyColor
  | startEnd (startV endV : String)
  | valueList (entries : List VTColor)
deriving DecidableEq

/-- A point-valued legacy field. -/
structure LegacyPoint where
  x : ℚ
  y : ℚ
deriving DecidableEq

/-- The legacy spawnRect payload. -/
structure LegacyRect where
  x : ℚ
  y : ℚ
  w : ℚ
  h : ℚ
deriving DecidableEq

/-- The legacy spawnCircle payload (minR only used for rings). -/
structure LegacyCircle where
  x : ℚ
  y : ℚ
  r : ℚ
  minR : Option ℚ
deriving DecidableEq

/-- The legacy extraData object, of which only path is read. -/
structure LegacyExtra where
  path : Option String
deriving DecidableEq

/-- The shape of the art argument, which selects the texture behavior. -/
inductive UpgArt
  | animList
  | animSingle
  | textureList
  | textureSingle
deriving DecidableEq

/-- The spawnShape payload pushed by the upgrade. -/
inductive UpgShape
  | torus (x y radius : ℚ) (innerRadius : Option ℚ) (affectRotation : Bool)
  | rect (data : Option LegacyRect)
  | polygonalChain (data : Option (List LegacyPoint))
deriving DecidableEq

/-- The configuration payload of each behavior entry the upgrade can push. -/
inductive UpgBConfig
  | alphaStatic (alpha : ℚ)
  | alphaDyn (alpha : LegacyScalar)
  | moveAcceleration (accel : LegacyPoint) (minStart maxStart : ℚ)
      (rotate : Bool) (maxSpeed : Option ℚ)
  | movePath (path : String) (speed : LegacyScalar) (minMult : ℚ)
  | moveSpeedStatic (minV maxV : ℚ)
  | moveSpeedDyn (speed : LegacyScalar) (minMult : Option ℚ)
  | scaleStatic (minV maxV : ℚ)
  | scaleDyn (scale : LegacyScalar) (minMult : ℚ)
  | colorStatic (color : String)
  | colorDyn (color : LegacyColor)
  | rotationDyn (accel minSpeed maxSpeed minStart maxStart : ℚ)
  | rotationStatic (minV maxV : ℚ)
  | noRotationCfg
  | blendModeCfg (blendMode : String)
  | animatedRandomCfg
  | animatedSingleCfg
  | textureOrderedCfg
  | textureRandomCfg
  | textureSingleCfg
  | spawnBurst (start : ℚ) (spacing : Option ℚ) (distance : ℚ)
  | spawnPointCfg
  | spawnShapeCfg (shape : UpgShape)
deriving DecidableEq

/-- One entry of the behaviors list: a type tag and its configuration. -/
structure UpgBehaviorEntry where
  btype : String
  bconfig : UpgBConfig
deriving DecidableEq

/-- The unified configuration record: the passthrough emitter fields, the
behaviors key whose presence marks a current-schema configuration, and
the legacy flat fields. -/
structure UpgConfig where
  lifetime : Option (ℚ × ℚ)
  ease : Option (ℚ → ℚ)
  particlesPerWave : Option ℚ
  frequency : Option ℚ
  spawnChance : Option ℚ
  emitterLifetime : Option ℚ
  maxParticles : Option ℚ
  addAtBack : Option Bool
  pos : Option LegacyPoint
  emit : Option Bool
  autoUpdate : Option Bool
  behaviors : Option (List UpgBehaviorEntry)
  alpha : Option LegacyScalar
  speed : Option LegacyScalar
  minimumSpeedMultiplier : Option ℚ
  scale : Option LegacyScalar
  minimumScaleMultiplier : Option ℚ
  color : Option LegacyColor
  acceleration : Option LegacyPoint
  maxSpeed : Option ℚ
  noRotation : Option Bool
  rotationAcceleration : Option ℚ
  rotationSpeedMin : Option ℚ
  rotationSpeedMax : Option ℚ
  startRotationMin : Option ℚ
  startRotationMax : Option ℚ
  blendMode : Option String
  orderedArt : Option Bool
  extraData : Option LegacyExtra
  spawnType : Option String
  spawnCircle : Option LegacyCircle
  spawnRect : Option LegacyRect
  spawnPolygon : Option (List LegacyPoint)
  angleStart : Option ℚ
  particleSpacing : Option ℚ

/-- Truthiness of an optional number: present and nonzero. -/
def truthyQ (v : Option ℚ) : Bool :=
  match v with
  | some q => decide (q ≠ 0)
  | none => false

/-- Truthiness of an optional string: present and nonempty. -/
def truthyStr (v : Option String) : Bool :=
  match v with
  | some s => decide (s ≠ "")
  | none => false

/-- The alpha section of the upgrade. -/
def upgAlpha (c : UpgConfig) : List UpgBehaviorEntry :=
  match c.alpha with
  | none => []
  | some (.startEnd s e _) =>
    if s = e then
      if s ≠ 1 then [⟨"alphaStatic", .alphaStatic s⟩] else []
    else [⟨"alpha", .alphaDyn (.valueList [⟨s, 0⟩, ⟨e, 1⟩])⟩]
  | some (.valueList [v]) =>
    if v.value ≠ 1 then [⟨"alphaStatic", .alphaStatic v.value⟩] else []
  | some (.valueList l) => [⟨"alpha", .alphaDyn (.valueList l)⟩]

/-- The movement section of the upgrade: acceleration, else path, else
plain speed.  none models the JavaScript TypeError of reading start on
an undefined config.speed (or the first entry of an empty speed list). -/
def upgMovement (c : UpgConfig) : Option (List UpgBehaviorEntry) :=
  let accelOn :=
    match c.acceleration with
    | some a => decide (a.x ≠ 0 ∨ a.y ≠ 0)
    | none => false
  if accelOn then
    match c.acceleration, c.speed with
    | some a, some (.startEnd s _ m) =>
      some [⟨"moveAcceleration",
        .moveAcceleration a (s * m.getD 1) s (!(c.noRotation.getD false)) c.maxSpeed⟩]
    | some a, some (.valueList (v :: _)) =>
      some [⟨"moveAcceleration",
        .moveAcceleration a (v.value * (c.minimumSpeedMultiplier.getD 1)) v.value
          (!(c.noRotation.getD false)) c.maxSpeed⟩]
    | _, _ => none
  else if truthyStr (c.extraData.bind (fun e => e.path)) then
    match (c.extraData.bind (fun e => e.path)), c.speed with
    | some ps, some (.startEnd s e m) =>
      let list : LegacyScalar :=
        if s = e then .valueList [⟨s, 0⟩] else .valueList [⟨s, 0⟩, ⟨e, 1⟩]
      some [⟨"movePath", .movePath ps list (m.getD 1)⟩]
    | some ps, some (.valueList l) =>
      some [⟨"movePath", .movePath ps (.valueList l) (c.minimumSpeedMultiplier.getD 1)⟩]
    | _, none => none
    | none, _ => none
  else
    match c.speed with
    | none => some []
    | some (.startEnd s e m) =>
      if s = e then
        some [⟨"moveSpeedStatic", .moveSpeedStatic (s * m.getD 1) s⟩]
      else
        some [⟨"moveSpeed", .moveSpeedDyn (.valueList [⟨s, 0⟩, ⟨e, 1⟩]) m⟩]
    | some (.valueList [v]) =>
      some [⟨"moveSpeedStatic",
        .moveSpeedStatic (v.value * (c.minimumSpeedMultiplier.getD 1)) v.value⟩]
    | some (.valueList l) =>
      some [⟨"moveSpeed", .moveSpeedDyn (.valueList l) (some (c.minimumSpeedMultiplier.getD 1))⟩]

/-- The scale section of the upgrade. -/
def upgScale (c : UpgConfig) : List UpgBehaviorEntry :=
  match c.scale with
  | none => []
  | some (.startEnd s e m) =>
    if s = e then [⟨"scaleStatic", .scaleStatic (s * m.getD 1) s⟩]
    else [⟨"scale", .scaleDyn (.valueList [⟨s, 0⟩, ⟨e, 1⟩]) (m.getD 1)⟩]
  | some (.valueList [v]) =>
    [⟨"scaleStatic",
      .scaleStatic (v.value * (c.minimumScaleMultiplier.getD 1)) v.value⟩]
  | some (.valueList l) =>
    [⟨"scale", .scaleDyn (.valueList l) (c.minimumScaleMultiplier.getD 1)⟩]

/-- The color section of the upgrade. -/
def upgColor (c : UpgConfig) : List UpgBehaviorEntry :=
  match c.color with
  | none => []
  | some (.startEnd s e) =>
    if s = e then
      if s ≠ "ffffff" then [⟨"colorStatic", .colorStatic s⟩] else []
    else [⟨"color", .colorDyn (.valueList [⟨s, 0⟩, ⟨e, 1⟩])⟩]
  | some (.valueList [v]) =>
    if v.value ≠ "ffffff" then [⟨"colorStatic", .colorStatic v.value⟩] else []
  | some (.valueList l) => [⟨"color", .colorDyn (.valueList l)⟩]

/-- The rotation and blend-mode sections of the upgrade. -/
def upgRotation (c : UpgConfig) : List UpgBehaviorEntry :=
  (if truthyQ c.rotationAcceleration ∨ truthyQ c.rotationSpeedMin ∨
      truthyQ c.rotationSpeedMax then
    [⟨"rotation",
      .rotationDyn (c.rotationAcceleration.getD 0) (c.rotationSpeedMin.getD 0)
        (c.rotationSpeedMax.getD 0) (c.startRotationMin.getD 0)
        (c.startRotationMax.getD 0)⟩]
  else if truthyQ c.startRotationMin ∨ truthyQ c.startRotationMax then
    [⟨"rotationStatic",
      .rotationStatic (c.startRotationMin.getD 0) (c.startRotationMax.getD 0)⟩]
  else []) ++
  (if c.noRotation.getD false then [⟨"noRotation", .noRotationCfg⟩] else []) ++
  (match c.blendMode with
   | some b => if b ≠ "" ∧ b ≠ "normal" then [⟨"blendMode", .blendModeCfg b⟩] else []
   | none => [])

/-- The texture section of the upgrade, selected by the shape of art. -/
def upgArtSection (c : UpgConfig) (art : UpgArt) : List UpgBehaviorEntry :=
  match art with
  | .animList => [⟨"animatedRandom", .animatedRandomCfg⟩]
  | .animSingle => [⟨"animatedSingle", .animatedSingleCfg⟩]
  | .textureList =>
    if c.orderedArt.getD false then [⟨"textureOrdered", .textureOrderedCfg⟩]
    else [⟨"textureRandom", .textureRandomCfg⟩]
  | .textureSingle => [⟨"textureSingle", .textureSingleCfg⟩]

/-- The spawn section of the upgrade: burst, point, or a spawnShape for
the ring, circle, rect and polygonalChain legacy types (nothing for any
other type).  Ring and circle read config.spawnCircle and throw when it
is absent, modeled as none. -/
def upgSpawn (c : UpgConfig) : Option (List UpgBehaviorEntry) :=
  match c.spawnType with
  | some "burst" =>
    some [⟨"spawnBurst", .spawnBurst (c.angleStart.getD 0) c.particleSpacing 0⟩]
  | some "point" => some [⟨"spawnPoint", .spawnPointCfg⟩]
  | some "ring" =>
    match c.spawnCircle with
    | some circ =>
      some [⟨"spawnShape", .spawnShapeCfg (.torus circ.x circ.y circ.r circ.minR true)⟩]
    | none => none
  | some "circle" =>
    match c.spawnCircle with
    | some circ =>
      some [⟨"spawnShape", .spawnShapeCfg (.torus circ.x circ.y circ.r (some 0) false)⟩]
    | none => none
  | some "rect" => some [⟨"spawnShape", .spawnShapeCfg (.rect c.spawnRect)⟩]
  | some "polygonalChain" =>
    some [⟨"spawnShape", .spawnShapeCfg (.polygonalChain c.spawnPolygon)⟩]
  | _ => some []

/-- upgradeConfig: a configuration that already has a behaviors key is
returned unchanged; otherwise the flat fields are translated section by
section into a fresh record whose behaviors key is always present and
whose legacy keys are absent. -/
def upgradeConfig (c : UpgConfig) (art : UpgArt) : Option UpgConfig :=
  match c.behaviors with
  | some _ => some c
  | none =>
    match upgMovement c, upgSpawn c with
    | some mv, some sp =>
      some
        { lifetime := c.lifetime
          ease := c.ease
          particlesPerWave := c.particlesPerWave
          frequency := c.frequency
          spawnChance := c.spawnChance
          emitterLifetime := c.emitterLifetime
          maxParticles := c.maxParticles
          addAtBack := c.addAtBack
          pos := c.pos
          emit := c.emit
          autoUpdate := c.autoUpdate
          behaviors := some (upgAlpha c ++ mv ++ upgScale c ++ upgColor c ++
            upgRotation c ++ upgArtSection c art ++ sp)
          alpha := none
          speed := none
          minimumSpeedMultiplier := none
          scale := none
          minimumScaleMultiplier := none
          color := none
          acceleration := none
          maxSpeed := none
          noRotation := none
          rotationAcceleration := none
          rotationSpeedMin := none
          rotationSpeedMax := none
          startRotationMin := none
          startRotationMax := none
          blendMode := none
          orderedArt := none
          extraData := none
          spawnType := none
          spawnCircle := none
          spawnRect := none
          spawnPolygon := none
          angleStart := none
          particleSpacing := none }
    | _, _ => none

/-! ## Concrete instances used by witnesses and counterexamples -/

/-- A trivial model context over a unit scratch: a constant random stream
and identity scratch actions. -/
def unitCtx : Ctx Unit :=
  { rng := fun _ => 1 / 2
    posApply := fun _ _ _ s => s
    resetScratch := fun s => s
    newScratch := () }

/-- A configuration with spawnChance 0, fixed lifetime 2, frequency 1. -/
def cfgChanceZero : ConfigE Unit :=
  { lifetimeMin := 2
    lifetimeMax := 2
    ease := none
    particlesPerWave := none
    frequency := some 1
    spawnChance := some 0
    emitterLifetime := none
    maxParticles := some 10
    addAtBack := false
    pos := none
    emit := none
    autoUpdate := false
    spawnInitBehaviors := []
    lateInitBehaviors := []
    updateBehaviors := [] }

/-- The emitter built from cfgChanceZero with a display parent. -/
def emitterChanceZero : EmitterState Unit := initE (baseState Unit true) cfgChanceZero

/-- The same emitter after the public spawnChance field is assigned 0
directly (the source class exposes spawnChance as a plain property, so a
post-init assignment bypasses the init validation). -/
def emitterStoredZero : EmitterState Unit :=
  { emitterChanceZero with spawnChance := 0 }

/-- A three-keyframe stepped list with times 0, one half and 1. -/
def steppedThree : PList ℚ :=
  { first := ⟨10, 0⟩, rest := [⟨20, 1 / 2⟩, ⟨30, 1⟩], isStepped := true, ease := none }

/-- A constant speed list in chain form for the path behavior. -/
def flatSpeed : PList ℝ :=
  { first := ⟨1, 0⟩, rest := [⟨1, 1⟩], isStepped := false, ease := none }

/-- A path particle at the origin with unit speed multiplier. -/
def originPathParticle : PathParticle :=
  { x := 0, y := 0, rotation := 0, agePercent := 0, initRotation := 0,
    initPosX := 0, initPosY := 0, movement := 0, speedMult := 1 }

/-- An acceleration behavior with no speed clamp. -/
def sampleAccel : AccelBehavior :=
  { minStart := 600, maxStart := 600, accelX := 3, accelY := 4,
    rotate := false, maxSpeed := 0 }

/-- A particle with velocity (1, 2) at the origin. -/
def sampleAccelParticle : AccelParticle :=
  { x := 0, y := 0, vx := 1, vy := 2, rotation := 0 }

/-- A particle record for the aging-phase witness. -/
def sampleParticle : Particle Unit :=
  { age := 0, maxLife := 2, oneOverLife := 1 / 2, agePercent := 0, scratch := () }

/-- A current-schema configuration: the behaviors key is present. -/
def currentCfg : UpgConfig :=
  { lifetime := some (2, 2)
    ease := none
    particlesPerWave := none
    frequency := some 1
    spawnChance := none
    emitterLifetime := none
    maxParticles := none
    addAtBack := none
    pos := none
    emit := none
    autoUpdate := none
    behaviors := some []
    alpha := none
    speed := none
    minimumSpeedMultiplier := none
    scale := none
    minimumScaleMultiplier := none
    color := none
    acceleration := none
    maxSpeed := none
    noRotation := none
    rotationAcceleration := none
    rotationSpeedMin := none
    rotationSpeedMax := none
    startRotationMin := none
    startRotationMax := none
    blendMode := none
    orderedArt := none
    extraData := none
    spawnType := none
    spawnCircle := none
    spawnRect := none
    spawnPolygon := none
    angleStart := none
    particleSpacing := none }

/-- A legacy configuration: no behaviors key, an alpha ramp and a speed. -/
def legacyCfg : UpgConfig :=
  { currentCfg with
    behaviors := none
    alpha := some (.startEnd 1 0 none)
    speed := some (.startEnd 100 50 none) }

/-! ## Theorems -/

theorem getLast?_cons_getD {β : Type} (l : List β) (a d : β) :
    ((a :: l).getLast?).getD d = (l.getLast?).getD a := by
  induction l generalizing a with
  | nil => rfl
  | cons b t ih =>
    rw [List.getLast?_cons_cons]
    cases t with
    | nil => rfl
    | cons c u => rw [List.getLast?_cons_cons]; exact (ih b).symm ▸ rfl

theorem steppedWalk_mem {α V : Type} [LinearOrder α] (cur : KNode α V)
    (rest : List (KNode α V)) (lerp : α) :
    steppedWalk cur rest lerp ∈ cur :: rest := by
  induction rest generalizing cur with
  | nil => simp [steppedWalk]
  | cons nxt rest ih =>
    rw [steppedWalk]
    by_cases h : nxt.time < lerp
    · rw [if_pos h]
      exact List.mem_cons_of_mem cur (ih nxt)
    · rw [if_neg h]
      exact List.mem_cons_self _ _

theorem steppedWalk_eq_lastStrictBefore {α V : Type} [LinearOrder α]
    (cur : KNode α V) (rest : List (KNode α V)) (lerp : α)
    (hs : (cur :: rest).Pairwise (fun a b => a.time ≤ b.time)) :
    steppedWalk cur rest lerp = lastStrictBefore cur rest lerp := by
  induction rest generalizing cur with
  | nil => simp [steppedWalk, lastStrictBefore]
  | cons nxt rest ih =>
    rw [List.pairwise_cons] at hs
    rw [steppedWalk, lastStrictBefore]
    by_cases h : nxt.time < lerp
    · rw [if_pos h, List.filter_cons_of_pos (by simpa using h),
        getLast?_cons_getD]
      exact ih nxt hs.2
    · rw [if_neg h, List.filter_cons_of_neg (by simpa using h)]
      have hrest : rest.filter (fun n => decide (n.time < lerp)) = [] := by
        rw [List.filter_eq_nil_iff]
        intro m hm
        have h2 : nxt.time ≤ m.time := (List.pairwise_cons.mp hs.2).1 m hm
        simp only [decide_eq_true_eq]
        exact fun hlt => h (lt_of_le_of_lt h2 hlt)
      rw [hrest]
      rfl

/-- C5: the claim that interpolate on a stepped list returns the value of
the latest keyframe whose time is at or before the fraction is false: on
the stepped list with keyframes (10, 0), (20, one half), (30, 1) at
fraction one half, the stepped interpolator returns 10 (the keyframe
strictly before the fraction), while the keyframe at or before the
fraction holds 20. -/
theorem claim5_counterexample :
    steppedThree.interpolate (1 / 2) = some 10 ∧
    (lastAtOrBefore steppedThree.first steppedThree.rest
      (applyEase steppedThree.ease (1 / 2))).value = 20 ∧
    (10 : ℚ) ≠ 20 := by
  have hmode : steppedThree.resetMode = .stepped := by
    norm_num [steppedThree, PList.resetMode]
  refine ⟨?_, ?_, by norm_num⟩
  · simp only [PList.interpolate, hmode]
    norm_num [steppedThree, intValueStepped, applyEase, steppedWalk]
  · norm_num [steppedThree, lastAtOrBefore, applyEase, List.filter]

/-- C5 (amended): for every property list resolved to the stepped
interpolator and every fraction, interpolate returns exactly the stored
value of the latest keyframe whose time is strictly before the eased
fraction (the first keyframe when there is none), and that keyframe is a
member of the chain, so the result is never a blended value; the color
stepped interpolator packs the components of the same selected keyframe. -/
theorem claim5_amended :
    (∀ (d : PList ℚ) (lerp : ℚ), d.resetMode = .stepped →
      (d.first :: d.rest).Pairwise (fun a b => a.time ≤ b.time) →
      d.interpolate lerp =
        some (lastStrictBefore d.first d.rest (applyEase d.ease lerp)).value ∧
      lastStrictBefore d.first d.rest (applyEase d.ease lerp) ∈ d.first :: d.rest) ∧
    (∀ (ease : Option (ℚ → ℚ)) (first : KNode ℚ Rgb) (rest : List (KNode ℚ Rgb))
      (lerp : ℚ), (first :: rest).Pairwise (fun a b => a.time ≤ b.time) →
      intColorStepped ease first rest lerp =
        combineRGBComponents (lastStrictBefore first rest (applyEase ease lerp)).value.r
          (lastStrictBefore first rest (applyEase ease lerp)).value.g
          (lastStrictBefore first rest (applyEase ease lerp)).value.b ∧
      lastStrictBefore first rest (applyEase ease lerp) ∈ first :: rest) := by
  constructor
  · intro d lerp hmode hsort
    rw [PList.interpolate, hmode]
    rw [← steppedWalk_eq_lastStrictBefore _ _ _ hsort]
    exact ⟨by rw [intValueStepped], steppedWalk_mem _ _ _⟩
  · intro ease first rest lerp hsort
    rw [← steppedWalk_eq_lastStrictBefore _ _ _ hsort]
    exact ⟨by rw [intColorStepped], steppedWalk_mem _ _ _⟩

theorem claim5_amended_witness :
    steppedThree.resetMode = .stepped ∧
    steppedThree.interpolate (1 / 2) =
      some (lastStrictBefore steppedThree.first steppedThree.rest
        (applyEase steppedThree.ease (1 / 2))).value ∧
    intColorStepped (none : Option (ℚ → ℚ)) ⟨⟨255, 0, 0⟩, 0⟩ [⟨⟨0, 255, 0⟩, 1⟩] (1 / 2) =
      combineRGBComponents
        (lastStrictBefore (⟨⟨255, 0, 0⟩, 0⟩ : KNode ℚ Rgb) [⟨⟨0, 255, 0⟩, 1⟩]
          (applyEase none (1 / 2))).value.r
        (lastStrictBefore (⟨⟨255, 0, 0⟩, 0⟩ : KNode ℚ Rgb) [⟨⟨0, 255, 0⟩, 1⟩]
          (applyEase none (1 / 2))).value.g
        (lastStrictBefore (⟨⟨255, 0, 0⟩, 0⟩ : KNode ℚ Rgb) [⟨⟨0, 255, 0⟩, 1⟩]
          (applyEase none (1 / 2))).value.b := by
  have hmode : steppedThree.resetMode = .stepped := by
    norm_num [steppedThree, PList.resetMode]
  have hsort : (steppedThree.first :: steppedThree.rest).Pairwise
      (fun a b => a.time ≤ b.time) := by
    norm_num [steppedThree, List.pairwise_cons]
  refine ⟨hmode, ?_, ?_⟩
  · exact (claim5_amended.1 steppedThree (1 / 2) hmode hsort).1
  · refine (claim5_amended.2 none ⟨⟨255, 0, 0⟩, 0⟩ [⟨⟨0, 255, 0⟩, 1⟩] (1 / 2) ?_).1
    norm_num [List.pairwise_cons]

/-- C8: a two-keyframe scalar list with keyframes (v0, 0) and (v1, 1) and
no custom ease resolves to the simple fast path, and interpolate yields
exactly v0 at 0, v1 at 1 and the linear midpoint at one half. -/
theorem claim8_two_node_simple (v0 v1 : ℚ) (stepped : Bool) :
    (PList.mk ⟨v0, 0⟩ [⟨v1, 1⟩] stepped none).resetMode = .simple ∧
    (PList.mk ⟨v0, 0⟩ [⟨v1, 1⟩] stepped none).interpolate 0 = some v0 ∧
    (PList.mk ⟨v0, 0⟩ [⟨v1, 1⟩] stepped none).interpolate 1 = some v1 ∧
    (PList.mk ⟨v0, 0⟩ [⟨v1, 1⟩] stepped none).interpolate (1 / 2) =
      some ((v0 + v1) / 2) := by
  have hm : (PList.mk ⟨v0, 0⟩ [⟨v1, 1⟩] stepped none).resetMode = .simple := by
    simp [PList.resetMode]
  refine ⟨hm, ?_, ?_, ?_⟩
  · simp only [PList.interpolate, hm]
    norm_num [intValueSimple, applyEase]
  · simp only [PList.interpolate, hm]
    norm_num [intValueSimple, applyEase]
  · simp only [PList.interpolate, hm]
    norm_num [intValueSimple, applyEase]
    ring

/-- C4: the claim that a failed path-expression parse leaves the behavior
with an identity-like no-op path and that updateParticle then completes
without throwing is false: the constructor stores null (none) for the
path, and updateParticle calls it as a function, which throws.  At the
concrete behavior built from a failed parse, updateParticle on the
origin particle does not complete. -/
theorem claim4_counterexample :
    (mkPathBehavior (some (.expr none)) flatSpeed none).path = none ∧
    pathUpdateParticle (mkPathBehavior (some (.expr none)) flatSpeed none)
      originPathParticle 1 = none := by
  constructor
  · rfl
  · rw [pathUpdateParticle]
    rcases h : (mkPathBehavior (some (.expr none)) flatSpeed none).list.interpolate
        originPathParticle.agePercent with _ | sv
    · rfl
    · simp only [mkPathBehavior]

/-- C4 (amended): constructing a path behavior from an expression string
that fails to parse does not raise (the parse error is caught and the
stored path becomes null), but every subsequent updateParticle call on
that behavior fails when it calls the null path as a function; the
identity no-op fallback applies only when no path is configured at all. -/
theorem claim4_amended (speed : PList ℝ) (mm : Option ℝ)
    (r : Option (ℝ → ℝ)) (hr : r = none) :
    (mkPathBehavior (some (.expr r)) speed mm).path = none ∧
    (∀ (p : PathParticle) (dt : ℝ),
      pathUpdateParticle (mkPathBehavior (some (.expr r)) speed mm) p dt = none) ∧
    (mkPathBehavior none speed mm).path = some (fun x => x) := by
  subst hr
  refine ⟨rfl, ?_, rfl⟩
  intro p dt
  rw [pathUpdateParticle]
  rcases h : (mkPathBehavior (some (.expr none)) speed mm).list.interpolate
      p.agePercent with _ | sv
  · rfl
  · simp only [mkPathBehavior]

theorem claim4_amended_witness :
    (mkPathBehavior (some (.expr none)) flatSpeed none).path = none ∧
    pathUpdateParticle (mkPathBehavior (some (.expr none)) flatSpeed none)
      originPathParticle (1 / 2) = none ∧
    (mkPathBehavior none flatSpeed none).path = some (fun x => x) := by
  have h := claim4_amended flatSpeed none none rfl
  exact ⟨h.1, h.2.1 originPathParticle (1 / 2), h.2.2⟩

/-- C6: one acceleration update step sets the velocity to the old
velocity plus acceleration times dt, rescales it by maxSpeed over its
magnitude when a nonzero maxSpeed is configured and the magnitude
exceeds it, and advances the position by the average of the old and the
clamped new velocity times dt; moreover, for a nonzero dt the position
advance agrees with Euler integration at either endpoint exactly when
the velocity did not change, so the integration is genuinely midpoint. -/
theorem claim6_midpoint_integration (b : AccelBehavior) (p : AccelParticle)
    (dt nvx nvy cvx cvy : ℝ) (_hdt : 0 ≤ dt)
    (hnx : nvx = p.vx + b.accelX * dt)
    (hny : nvy = p.vy + b.accelY * dt)
    (hc : (cvx, cvy) =
      if b.maxSpeed ≠ 0 ∧ b.maxSpeed < lengthPt nvx nvy then
        (nvx * (b.maxSpeed / lengthPt nvx nvy), nvy * (b.maxSpeed / lengthPt nvx nvy))
      else (nvx, nvy)) :
    (accelUpdateParticle b p dt).vx = cvx ∧
    (accelUpdateParticle b p dt).vy = cvy ∧
    (accelUpdateParticle b p dt).x = p.x + ((p.vx + cvx) / 2) * dt ∧
    (accelUpdateParticle b p dt).y = p.y + ((p.vy + cvy) / 2) * dt ∧
    (dt ≠ 0 →
      (((accelUpdateParticle b p dt).x = p.x + p.vx * dt ∧
        (accelUpdateParticle b p dt).y = p.y + p.vy * dt) ↔
        (cvx = p.vx ∧ cvy = p.vy))) ∧
    (dt ≠ 0 →
      (((accelUpdateParticle b p dt).x = p.x + cvx * dt ∧
        (accelUpdateParticle b p dt).y = p.y + cvy * dt) ↔
        (cvx = p.vx ∧ cvy = p.vy))) := by
  have hv : (accelUpdateParticle b p dt).vx = cvx ∧
      (accelUpdateParticle b p dt).vy = cvy ∧
      (accelUpdateParticle b p dt).x = p.x + ((p.vx + cvx) / 2) * dt ∧
      (accelUpdateParticle b p dt).y = p.y + ((p.vy + cvy) / 2) * dt := by
    rw [accelUpdateParticle]
    subst hnx hny
    by_cases h0 : b.maxSpeed = 0
    · rw [if_neg (by simp [h0])] at hc
      simp only [h0, ne_eq, not_true_eq_false, if_false]
      rw [Prod.mk.injEq] at hc
      exact ⟨hc.1.symm, hc.2.symm, by rw [hc.1], by rw [hc.2]⟩
    · by_cases h1 : b.maxSpeed < lengthPt (p.vx + b.accelX * dt) (p.vy + b.accelY * dt)
      · rw [if_pos ⟨h0, h1⟩] at hc
        rw [Prod.mk.injEq] at hc
        simp only [if_pos h0, if_pos h1, ne_eq]
        exact ⟨hc.1.symm, hc.2.symm, by rw [hc.1], by rw [hc.2]⟩
      · rw [if_neg (by rintro ⟨_, hlt⟩; exact h1 hlt)] at hc
        rw [Prod.mk.injEq] at hc
        rw [if_pos h0, if_neg h1]
        exact ⟨hc.1.symm, hc.2.symm, by rw [hc.1], by rw [hc.2]⟩
  obtain ⟨h1, h2, h3, h4⟩ := hv
  refine ⟨h1, h2, h3, h4, ?_, ?_⟩
  · intro hne
    rw [h3, h4]
    constructor
    · rintro ⟨ha, hb⟩
      have ha2 : ((p.vx + cvx) / 2) * dt = p.vx * dt := by linarith
      have hb2 : ((p.vy + cvy) / 2) * dt = p.vy * dt := by linarith
      have ha3 : (p.vx + cvx) / 2 = p.vx := mul_right_cancel₀ hne ha2
      have hb3 : (p.vy + cvy) / 2 = p.vy := mul_right_cancel₀ hne hb2
      constructor <;> linarith
    · rintro ⟨ha, hb⟩
      rw [ha, hb]
      constructor <;> ring
  · intro hne
    rw [h3, h4]
    constructor
    · rintro ⟨ha, hb⟩
      have ha2 : ((p.vx + cvx) / 2) * dt = cvx * dt := by linarith
      have hb2 : ((p.vy + cvy) / 2) * dt = cvy * dt := by linarith
      have ha3 : (p.vx + cvx) / 2 = cvx := mul_right_cancel₀ hne ha2
      have hb3 : (p.vy + cvy) / 2 = cvy := mul_right_cancel₀ hne hb2
      constructor <;> linarith
    · rintro ⟨ha, hb⟩
      rw [ha, hb]
      constructor <;> ring

theorem claim6_midpoint_integration_witness :
    (accelUpdateParticle sampleAccel sampleAccelParticle 1).vx = 4 ∧
    (accelUpdateParticle sampleAccel sampleAccelParticle 1).vy = 6 ∧
    (accelUpdateParticle sampleAccel sampleAccelParticle 1).x = 5 / 2 ∧
    (accelUpdateParticle sampleAccel sampleAccelParticle 1).y = 4 := by
  have h := claim6_midpoint_integration sampleAccel sampleAccelParticle 1 4 6 4 6
    (by norm_num)
    (by norm_num [sampleAccel, sampleAccelParticle])
    (by norm_num [sampleAccel, sampleAccelParticle])
    (by rw [if_neg]; rintro ⟨h0, _⟩; exact h0 (by norm_num [sampleAccel]))
  refine ⟨h.1, h.2.1, ?_, ?_⟩
  · rw [h.2.2.1]
    norm_num [sampleAccelParticle]
  · rw [h.2.2.2.1]
    norm_num [sampleAccelParticle]

theorem runUB_fst {σ : Type} (ubs : List (UpdateB σ)) (p : Particle σ) (dt : ℚ) :
    (runUB ubs p dt).1.age = p.age ∧ (runUB ubs p dt).1.maxLife = p.maxLife := by
  induction ubs generalizing p with
  | nil => simp [runUB]
  | cons b rest ih =>
    simp only [runUB]
    split
    · exact ⟨rfl, rfl⟩
    · exact ih _

theorem runUB_noDeath {σ : Type} :
    ∀ (ubs : List (UpdateB σ)), (∀ b ∈ ubs, ∀ p dt, (b p dt).2 = false) →
      ∀ (p : Particle σ) (dt : ℚ), (runUB ubs p dt).2 = false
  | [], _, p, dt => by simp [runUB]
  | b :: rest, hnd, p, dt => by
    simp only [runUB, hnd b (List.mem_cons_self b rest) p dt]
    exact runUB_noDeath rest (fun b2 hb2 => hnd b2 (List.mem_cons_of_mem b hb2)) _ dt

theorem agePhase_count_le {σ : Type} (ubs : List (UpdateB σ)) (ce : Option (ℚ → ℚ))
    (δ : ℚ) : ∀ (l : List (Particle σ)) (pool : List σ) (count : ℕ),
    (agePhase ubs ce δ l pool count).2.2 ≤ count
  | [], pool, count => by simp [agePhase]
  | p :: rest, pool, count => by
    simp only [agePhase]
    split
    · exact le_trans (agePhase_count_le ubs ce δ rest _ _) (Nat.sub_le _ _)
    · split
      · exact le_trans (agePhase_count_le ubs ce δ rest _ _) (Nat.sub_le _ _)
      · have h2 := agePhase_count_le ubs ce δ rest pool count
        rcases h : agePhase ubs ce δ rest pool count with ⟨surv, pool2, count2⟩
        rw [h] at h2
        simpa using h2

theorem agePhase_mem {σ : Type} (ubs : List (UpdateB σ)) (ce : Option (ℚ → ℚ))
    (δ : ℚ) : ∀ (l : List (Particle σ)) (pool : List σ) (count : ℕ),
    ∀ q ∈ (agePhase ubs ce δ l pool count).1, 0 ≤ q.age ∧ q.age ≤ q.maxLife
  | [], pool, count => by simp [agePhase]
  | p :: rest, pool, count => by
    simp only [agePhase]
    split
    · exact agePhase_mem ubs ce δ rest _ _
    · rename_i hkeep
      push_neg at hkeep
      split
      · exact agePhase_mem ubs ce δ rest _ _
      · have h2 := agePhase_mem ubs ce δ rest pool count
        rcases h : agePhase ubs ce δ rest pool count with ⟨surv, pool2, count2⟩
        rw [h] at h2
        intro q hq
        simp only [List.mem_cons] at hq
        rcases hq with hq | hq
        · subst hq
          have ha := runUB_fst ubs
            { { p with age := p.age + δ } with
              agePercent := applyEaseQ ce ((p.age + δ) * p.oneOverLife) } δ
          refine ⟨?_, ?_⟩
          · rw [ha.1]
            exact hkeep.2
          · rw [ha.1, ha.2]
            exact hkeep.1
        · exact h2 q hq

theorem agePhase_filter {σ : Type} (ubs : List (UpdateB σ)) (ce : Option (ℚ → ℚ))
    (δ : ℚ) (hnd : ∀ b ∈ ubs, ∀ p dt, (b p dt).2 = false) :
    ∀ (l : List (Particle σ)) (pool : List σ) (count : ℕ),
    (agePhase ubs ce δ l pool count).1.map (fun p => (p.age, p.maxLife)) =
      (l.map (fun p => (p.age + δ, p.maxLife))).filter
        (fun q => decide (0 ≤ q.1) && decide (q.1 ≤ q.2))
  | [], pool, count => by simp [agePhase]
  | p :: rest, pool, count => by
    simp only [agePhase, List.map_cons, List.filter_cons]
    split
    · rename_i hdrop
      have hpred : (decide (0 ≤ p.age + δ) && decide (p.age + δ ≤ p.maxLife)) = false := by
        rcases hdrop with hd | hd
        · simp [not_le.mpr hd]
        · simp [not_le.mpr hd]
      rw [hpred]
      exact agePhase_filter ubs ce δ hnd rest _ _
    · rename_i hkeep
      push_neg at hkeep
      have hpred : (decide (0 ≤ p.age + δ) && decide (p.age + δ ≤ p.maxLife)) = true := by
        simp [hkeep.1, hkeep.2]
      rw [hpred]
      have hdie := runUB_noDeath ubs hnd
        { { p with age := p.age + δ } with
          agePercent := applyEaseQ ce ((p.age + δ) * p.oneOverLife) } δ
      rw [if_neg (by simp [hdie])]
      have h2 := agePhase_filter ubs ce δ hnd rest pool count
      rcases h : agePhase ubs ce δ rest pool count with ⟨surv, pool2, count2⟩
      rw [h] at h2
      have ha := runUB_fst ubs
        { { p with age := p.age + δ } with
          agePercent := applyEaseQ ce ((p.age + δ) * p.oneOverLife) } δ
      simp only at h2
      simp [ha.1, ha.2, h2]

theorem makeWave_spec {σ : Type} (ctx : Ctx σ) (sc minL maxL timer : ℚ) :
    ∀ (slots : ℕ) (pool : List σ) (count : ℕ) (idx : ℕ),
    (makeWave ctx sc minL maxL timer slots pool count idx).2.2.1 =
      count + (makeWave ctx sc minL maxL timer slots pool count idx).1.length ∧
    (makeWave ctx sc minL maxL timer slots pool count idx).1.length ≤ slots ∧
    ∀ q ∈ (makeWave ctx sc minL maxL timer slots pool count idx).1,
      q.age = 0 ∧ -timer < q.maxLife
  | 0, pool, count, idx => by simp [makeWave]
  | n + 1, pool, count, idx => by
    simp only [makeWave]
    by_cases hchance : sc < 1 ∧ sc ≤ ctx.rng idx
    · rw [if_pos hchance]
      have h2 := makeWave_spec ctx sc minL maxL timer n pool count (idx + 1)
      exact ⟨h2.1, le_trans h2.2.1 (Nat.le_succ n), h2.2.2⟩
    · rw [if_neg hchance]
      by_cases hskip :
          (lifetimeDraw ctx minL maxL (if sc < 1 then idx + 1 else idx)).1 ≤ -timer
      · rw [if_pos hskip]
        have h2 := makeWave_spec ctx sc minL maxL timer n pool count
          (lifetimeDraw ctx minL maxL (if sc < 1 then idx + 1 else idx)).2
        exact ⟨h2.1, le_trans h2.2.1 (Nat.le_succ n), h2.2.2⟩
      · rw [if_neg hskip]
        have h2 := makeWave_spec ctx sc minL maxL timer n (poolTake ctx pool).2
          (count + 1) (lifetimeDraw ctx minL maxL (if sc < 1 then idx + 1 else idx)).2
        rcases h : makeWave ctx sc minL maxL timer n (poolTake ctx pool).2
          (count + 1) (lifetimeDraw ctx minL maxL (if sc < 1 then idx + 1 else idx)).2
          with ⟨wave, pool2, count2, idx2⟩
        rw [h] at h2
        simp only at h2
        simp only [List.length_cons, List.mem_cons]
        refine ⟨by omega, by omega, ?_⟩
        intro q hq
        rcases hq with hq | hq
        · subst hq
          exact ⟨rfl, not_le.mp hskip⟩
        · exact h2.2.2 q hq

theorem makeWave_zero {σ : Type} (ctx : Ctx σ) (minL maxL timer : ℚ)
    (hrng : ∀ k, 0 ≤ ctx.rng k) :
    ∀ (slots : ℕ) (pool : List σ) (count : ℕ) (idx : ℕ),
    (makeWave ctx 0 minL maxL timer slots pool count idx).1 = [] ∧
    (makeWave ctx 0 minL maxL timer slots pool count idx).2.1 = pool ∧
    (makeWave ctx 0 minL maxL timer slots pool count idx).2.2.1 = count
  | 0, pool, count, idx => by simp [makeWave]
  | n + 1, pool, count, idx => by
    simp only [makeWave]
    rw [if_pos ⟨by norm_num, hrng idx⟩]
    exact makeWave_zero ctx minL maxL timer hrng n pool count (idx + 1)

theorem makeWaveNow_spec {σ : Type} (ctx : Ctx σ) (sc minL maxL : ℚ) :
    ∀ (slots : ℕ) (pool : List σ) (count : ℕ) (idx : ℕ),
    (makeWaveNow ctx sc minL maxL slots pool count idx).2.2.1 =
      count + (makeWaveNow ctx sc minL maxL slots pool count idx).1.length ∧
    (makeWaveNow ctx sc minL maxL slots pool count idx).1.length ≤ slots
  | 0, pool, count, idx => by simp [makeWaveNow]
  | n + 1, pool, count, idx => by
    simp only [makeWaveNow]
    by_cases hchance : sc < 1 ∧ sc ≤ ctx.rng idx
    · rw [if_pos hchance]
      have h2 := makeWaveNow_spec ctx sc minL maxL n pool count (idx + 1)
      exact ⟨h2.1, le_trans h2.2 (Nat.le_succ n)⟩
    · rw [if_neg hchance]
      have h2 := makeWaveNow_spec ctx sc minL maxL n (poolTake ctx pool).2
        (count + 1) (lifetimeDraw ctx minL maxL (if sc < 1 then idx + 1 else idx)).2
      rcases h : makeWaveNow ctx sc minL maxL n (poolTake ctx pool).2
        (count + 1) (lifetimeDraw ctx minL maxL (if sc < 1 then idx + 1 else idx)).2
        with ⟨wave, pool2, count2, idx2⟩
      rw [h] at h2
      simp only at h2
      simp only [List.length_cons]
      exact ⟨by omega, by omega⟩

theorem makeWaveNow_zero {σ : Type} (ctx : Ctx σ) (minL maxL : ℚ)
    (hrng : ∀ k, 0 ≤ ctx.rng k) :
    ∀ (slots : ℕ) (pool : List σ) (count : ℕ) (idx : ℕ),
    (makeWaveNow ctx 0 minL maxL slots pool count idx).1 = [] ∧
    (makeWaveNow ctx 0 minL maxL slots pool count idx).2.1 = pool ∧
    (makeWaveNow ctx 0 minL maxL slots pool count idx).2.2.1 = count
  | 0, pool, count, idx => by simp [makeWaveNow]
  | n + 1, pool, count, idx => by
    simp only [makeWaveNow]
    rw [if_pos ⟨by norm_num, hrng idx⟩]
    exact makeWaveNow_zero ctx minL maxL hrng n pool count (idx + 1)

theorem catchUp_spec {σ : Type} (ubs : List (UpdateB σ)) (dt : ℚ) :
    ∀ (l : List (Particle σ)) (pool : List σ) (count : ℕ),
    (catchUp ubs dt l pool count).2.2 ≤ count ∧
    ∀ q ∈ (catchUp ubs dt l pool count).1,
      ∃ p, p ∈ l ∧ q.age = p.age ∧ q.maxLife = p.maxLife
  | [], pool, count => by simp [catchUp]
  | p :: rest, pool, count => by
    simp only [catchUp]
    split
    · have h2 := catchUp_spec ubs dt rest (((runUB ubs p dt).1.scratch) :: pool) (count - 1)
      refine ⟨le_trans h2.1 (Nat.sub_le _ _), ?_⟩
      intro q hq
      obtain ⟨p2, hp2, he⟩ := h2.2 q hq
      exact ⟨p2, List.mem_cons_of_mem p hp2, he⟩
    · have h2 := catchUp_spec ubs dt rest pool count
      rcases h : catchUp ubs dt rest pool count with ⟨surv, pool2, count2⟩
      rw [h] at h2
      refine ⟨by simpa using h2.1, ?_⟩
      intro q hq
      simp only [List.mem_cons] at hq
      rcases hq with hq | hq
      · subst hq
        exact ⟨p, List.mem_cons_self p rest,
          (runUB_fst ubs p dt).1, (runUB_fst ubs p dt).2⟩
      · obtain ⟨p2, hp2, he⟩ := h2.2 q hq
        exact ⟨p2, List.mem_cons_of_mem p hp2, he⟩

theorem applyInitB_map {σ γ : Type} (f : ℚ → ℚ → γ) (b : InitB σ)
    (w : List (Particle σ)) :
    (applyInitB b w).map (fun p => f p.age p.maxLife) =
      w.map (fun p => f p.age p.maxLife) := by
  simp [applyInitB, List.map_map]

theorem applyInits_map {σ γ : Type} (f : ℚ → ℚ → γ) (bs : List (InitB σ)) :
    ∀ (w : List (Particle σ)),
    (applyInits bs w).map (fun p => f p.age p.maxLife) =
      w.map (fun p => f p.age p.maxLife) := by
  induction bs with
  | nil => intro w; simp [applyInits]
  | cons b rest ih =>
    intro w
    have : applyInits (b :: rest) w = applyInits rest (applyInitB b w) := rfl
    rw [this, ih (applyInitB b w), applyInitB_map]

theorem positionStep_map {σ : Type} (pa : ℚ → ℚ → ℚ → σ → σ)
    (rot ex ey bd : ℚ) (ce : Option (ℚ → ℚ)) (w : List (Particle σ)) :
    (positionStep pa rot ex ey bd ce w).map (fun p => (p.age, p.maxLife)) =
      w.map (fun p => (p.age + bd, p.maxLife)) := by
  simp [positionStep, List.map_map]

theorem applyInits_nil {σ : Type} (bs : List (InitB σ)) :
    applyInits bs [] = ([] : List (Particle σ)) := by
  induction bs with
  | nil => rfl
  | cons b rest ih =>
    have : applyInits (b :: rest) ([] : List (Particle σ)) =
        applyInits rest (applyInitB b []) := rfl
    rw [this]
    exact ih

/-- Membership transport along an equality of age and maxLife projections. -/
theorem map_pair_mem {σ : Type} {w2 w : List (Particle σ)} {g : Particle σ → ℚ × ℚ}
    (he : w2.map (fun p => (p.age, p.maxLife)) = w.map g) {q : Particle σ}
    (hq : q ∈ w2) : ∃ p ∈ w, (q.age, q.maxLife) = g p := by
  have h1 : (q.age, q.maxLife) ∈ w2.map (fun p => (p.age, p.maxLife)) :=
    List.mem_map_of_mem _ hq
  rw [he] at h1
  obtain ⟨p, hp, he2⟩ := List.mem_map.mp h1
  exact ⟨p, hp, he2.symm⟩

theorem spawnLoop_spec {σ : Type} (ctx : Ctx σ) (δ pX pY cX cY : ℚ) :
    ∀ (n : ℕ) (s s2 : EmitterState σ),
    spawnLoop ctx δ pX pY cX cY n s = some s2 →
    s2.maxParticles = s.maxParticles ∧
    (s.particleCount ≤ s.maxParticles → s2.particleCount ≤ s2.maxParticles) ∧
    ((∀ p ∈ s.active, 0 ≤ p.age ∧ p.age ≤ p.maxLife) →
      ∀ p ∈ s2.active, 0 ≤ p.age ∧ p.age ≤ p.maxLife)
  | 0, s, s2 => by
    intro hrun
    rw [spawnLoop] at hrun
    split at hrun
    · cases hrun
      exact ⟨rfl, fun h => h, fun h => h⟩
    · cases hrun
  | n + 1, s, s2 => by
    intro hrun
    rw [spawnLoop] at hrun
    by_cases ht : 0 < s.spawnTimer
    · rw [if_pos ht] at hrun
      cases hrun
      exact ⟨rfl, fun h => h, fun h => h⟩
    rw [if_neg ht] at hrun
    simp only [] at hrun
    generalize hs1 : (if 0 ≤ s.emitterLife then
      { s with emitterLife := s.emitterLife - s.frequency } else s) = s1 at hrun
    have hmax1 : s1.maxParticles = s.maxParticles := by rw [← hs1]; split <;> rfl
    have hcount1 : s1.particleCount = s.particleCount := by rw [← hs1]; split <;> rfl
    have hactive1 : s1.active = s.active := by rw [← hs1]; split <;> rfl
    have htimer1 : s1.spawnTimer = s.spawnTimer := by rw [← hs1]; split <;> rfl
    split at hrun
    · cases hrun
      refine ⟨hmax1, fun h => ?_, fun h => ?_⟩
      · show s1.particleCount ≤ s1.maxParticles
        rw [hcount1, hmax1]
        exact h
      · show ∀ p ∈ s1.active, 0 ≤ p.age ∧ p.age ≤ p.maxLife
        rw [hactive1]
        exact h
    split at hrun
    · obtain ⟨h2max, h2count, h2val⟩ := spawnLoop_spec ctx δ pX pY cX cY n _ s2 hrun
      refine ⟨by rw [h2max]; exact hmax1, fun h => ?_, fun h => ?_⟩
      · apply h2count
        show s1.particleCount ≤ s1.maxParticles
        rw [hcount1, hmax1]
        exact h
      · apply h2val
        show ∀ p ∈ s1.active, 0 ≤ p.age ∧ p.age ≤ p.maxLife
        rw [hactive1]
        exact h
    rename_i hcap
    obtain ⟨h2max, h2count, h2val⟩ := spawnLoop_spec ctx δ pX pY cX cY n _ s2 hrun
    have hwspec := makeWave_spec ctx s1.spawnChance s1.minLifetime s1.maxLifetime
      s1.spawnTimer (min s1.particlesPerWave (s1.maxParticles - s1.particleCount))
      s1.pool s1.particleCount s1.rngIdx
    refine ⟨by rw [h2max]; exact hmax1, fun h => ?_, fun h => ?_⟩
    · apply h2count
      show (catchUp _ _ _ _ _).2.2 ≤ s1.maxParticles
      refine le_trans (catchUp_spec _ _ _ _ _).1
        (le_trans (le_of_eq hwspec.1) ?_)
      have hcount : s1.particleCount ≤ s1.maxParticles := by
        rw [hcount1, hmax1]; exact h
      have hlen := le_trans hwspec.2.1 (min_le_right s1.particlesPerWave
        (s1.maxParticles - s1.particleCount))
      omega
    · apply h2val
      intro q hq
      replace hq : q ∈ s1.active ++ _ := hq
      rcases List.mem_append.mp hq with hq | hq
      · rw [hactive1] at hq
        exact h q hq
      · obtain ⟨p3, hp3, he3⟩ := (catchUp_spec _ _ _ _ _).2 q hq
        obtain ⟨p4, hp4, he4⟩ := map_pair_mem
          (g := fun p => (p.age + -s1.spawnTimer, p.maxLife))
          (by rw [applyInits_map (fun a m => (a, m)), positionStep_map]) hp3
        obtain ⟨p5, hp5, he5⟩ := map_pair_mem
          (g := fun p => (p.age, p.maxLife))
          (applyInits_map (fun a m => (a, m)) s1.spawnInitBehaviors _) hp4
        have h5 := hwspec.2.2 p5 hp5
        have e3a : q.age = p3.age := he3.1
        have e3m : q.maxLife = p3.maxLife := he3.2
        have e4a : p3.age = p4.age + -s1.spawnTimer := by
          have h6 := congrArg Prod.fst he4
          simpa using h6
        have e4m : p3.maxLife = p4.maxLife := by
          have h6 := congrArg Prod.snd he4
          simpa using h6
        have e5a : p4.age = p5.age := by
          have h6 := congrArg Prod.fst he5
          simpa using h6
        have e5m : p4.maxLife = p5.maxLife := by
          have h6 := congrArg Prod.snd he5
          simpa using h6
        have hts : 0 ≤ -s1.spawnTimer := by
          rw [htimer1]
          simpa using le_of_not_lt ht
        constructor
        · rw [e3a, e4a, e5a, h5.1]
          simpa using hts
        · rw [e3a, e3m, e4a, e4m, e5a, e5m, h5.1]
          have h7 := h5.2
          linarith

theorem spawnLoop_zero {σ : Type} (ctx : Ctx σ) (δ pX pY cX cY : ℚ)
    (hrng : ∀ k, 0 ≤ ctx.rng k) :
    ∀ (n : ℕ) (s s2 : EmitterState σ), s.spawnChance = 0 →
    spawnLoop ctx δ pX pY cX cY n s = some s2 →
    s2.active = s.active ∧ s2.particleCount = s.particleCount ∧ s2.spawnChance = 0
  | 0, s, s2 => by
    intro hsc hrun
    rw [spawnLoop] at hrun
    split at hrun
    · cases hrun
      exact ⟨rfl, rfl, hsc⟩
    · cases hrun
  | n + 1, s, s2 => by
    intro hsc hrun
    rw [spawnLoop] at hrun
    by_cases ht : 0 < s.spawnTimer
    · rw [if_pos ht] at hrun
      cases hrun
      exact ⟨rfl, rfl, hsc⟩
    rw [if_neg ht] at hrun
    simp only [] at hrun
    generalize hs1 : (if 0 ≤ s.emitterLife then
      { s with emitterLife := s.emitterLife - s.frequency } else s) = s1 at hrun
    have hsc1 : s1.spawnChance = 0 := by rw [← hs1]; split <;> exact hsc
    have hcount1 : s1.particleCount = s.particleCount := by rw [← hs1]; split <;> rfl
    have hactive1 : s1.active = s.active := by rw [← hs1]; split <;> rfl
    split at hrun
    · cases hrun
      exact ⟨hactive1, hcount1, hsc1⟩
    split at hrun
    · obtain ⟨h1, h2, h3⟩ :=
        spawnLoop_zero ctx δ pX pY cX cY hrng n _ s2 (by exact hsc1) hrun
      exact ⟨h1.trans hactive1, h2.trans hcount1, h3⟩
    rw [hsc1] at hrun
    simp only [makeWave_zero ctx s1.minLifetime s1.maxLifetime s1.spawnTimer hrng,
      applyInits_nil, positionStep, List.map_nil, catchUp, List.append_nil] at hrun
    obtain ⟨h1, h2, h3⟩ :=
      spawnLoop_zero ctx δ pX pY cX cY hrng n _ s2 (by rfl) hrun
    exact ⟨h1.trans hactive1, h2.trans hcount1, h3⟩

theorem spawnLoop_isSome {σ : Type} (ctx : Ctx σ) (δ pX pY cX cY : ℚ) :
    ∀ (n : ℕ) (s : EmitterState σ), 0 < s.frequency →
    0 < s.spawnTimer + (n : ℚ) * s.frequency →
    (spawnLoop ctx δ pX pY cX cY n s).isSome = true
  | 0, s => by
    intro hf hb
    rw [spawnLoop]
    rw [if_pos (by simpa using hb)]
    rfl
  | n + 1, s => by
    intro hf hb
    rw [spawnLoop]
    by_cases ht : 0 < s.spawnTimer
    · rw [if_pos ht]
      rfl
    rw [if_neg ht]
    simp only []
    generalize hs1 : (if 0 ≤ s.emitterLife then
      { s with emitterLife := s.emitterLife - s.frequency } else s) = s1
    have hfreq1 : s1.frequency = s.frequency := by rw [← hs1]; split <;> rfl
    have htimer1 : s1.spawnTimer = s.spawnTimer := by rw [← hs1]; split <;> rfl
    split
    · rfl
    split
    · apply spawnLoop_isSome ctx δ pX pY cX cY n
      · show 0 < s1.frequency
        rw [hfreq1]
        exact hf
      · show 0 < s1.spawnTimer + s1.frequency + (n : ℚ) * s1.frequency
        rw [htimer1, hfreq1]
        push_cast at hb
        linarith
    · apply spawnLoop_isSome ctx δ pX pY cX cY n
      · show 0 < s1.frequency
        rw [hfreq1]
        exact hf
      · show 0 < s1.spawnTimer + s1.frequency + (n : ℚ) * s1.frequency
        rw [htimer1, hfreq1]
        push_cast at hb
        linarith

theorem spawnLoop_terminates {σ : Type} (ctx : Ctx σ) (δ pX pY cX cY : ℚ)
    (s : EmitterState σ) (hf : 0 < s.frequency) :
    ∃ fuel, (spawnLoop ctx δ pX pY cX cY fuel s).isSome = true := by
  obtain ⟨n, hn⟩ := exists_nat_gt (-s.spawnTimer / s.frequency)
  refine ⟨n, spawnLoop_isSome ctx δ pX pY cX cY n s hf ?_⟩
  have h2 : -s.spawnTimer / s.frequency * s.frequency < (n : ℚ) * s.frequency :=
    (mul_lt_mul_right hf).mpr hn
  rw [div_mul_cancel₀ _ (ne_of_gt hf)] at h2
  linarith

theorem updateE_cap {σ : Type} (ctx : Ctx σ) (δ : ℚ) (fuel : ℕ)
    (s s2 : EmitterState σ) (h : s.particleCount ≤ s.maxParticles)
    (hrun : updateE ctx δ fuel s = some s2) :
    s2.particleCount ≤ s2.maxParticles := by
  rw [updateE] at hrun
  split at hrun
  · cases hrun
    exact h
  simp only [] at hrun
  split at hrun
  · cases hrun
  rename_i s2x heq
  cases hrun
  have hagc := agePhase_count_le s.updateBehaviors s.customEase δ s.active s.pool
    s.particleCount
  have hx : s2x.particleCount ≤ s2x.maxParticles := by
    split at heq
    · obtain ⟨hm, hc, _⟩ := spawnLoop_spec ctx δ _ _ _ _ fuel _ s2x heq
      apply hc
      show (agePhase s.updateBehaviors s.customEase δ s.active s.pool
        s.particleCount).2.2 ≤ s.maxParticles
      exact le_trans hagc h
    · cases heq
      show (agePhase s.updateBehaviors s.customEase δ s.active s.pool
        s.particleCount).2.2 ≤ s.maxParticles
      exact le_trans hagc h
  repeat' split
  all_goals first
    | exact hx
    | simp [destroyE, cleanupE]

theorem updateE_valid {σ : Type} (ctx : Ctx σ) (δ : ℚ) (fuel : ℕ)
    (s s2 : EmitterState σ) (hp : s.parentExists = true)
    (hrun : updateE ctx δ fuel s = some s2) :
    ∀ p ∈ s2.active, 0 ≤ p.age ∧ p.age ≤ p.maxLife := by
  rw [updateE] at hrun
  rw [if_neg (by simp [hp])] at hrun
  simp only [] at hrun
  split at hrun
  · cases hrun
  rename_i s2x heq
  cases hrun
  have hage := agePhase_mem s.updateBehaviors s.customEase δ s.active s.pool
    s.particleCount
  have hx : ∀ p ∈ s2x.active, 0 ≤ p.age ∧ p.age ≤ p.maxLife := by
    split at heq
    · obtain ⟨_, _, hv⟩ := spawnLoop_spec ctx δ _ _ _ _ fuel _ s2x heq
      apply hv
      intro p hp2
      exact hage p hp2
    · cases heq
      intro p hp2
      exact hage p hp2
  repeat' split
  all_goals first
    | exact hx
    | simp [destroyE, cleanupE]

theorem updateE_zero {σ : Type} (ctx : Ctx σ) (δ : ℚ) (fuel : ℕ)
    (s s2 : EmitterState σ) (hrng : ∀ k, 0 ≤ ctx.rng k)
    (hsc : s.spawnChance = 0) (hactive : s.active = [])
    (hrun : updateE ctx δ fuel s = some s2) :
    s2.active = [] ∧ s2.spawnChance = 0 ∧ s2.particleCount ≤ s.particleCount := by
  rw [updateE] at hrun
  split at hrun
  · cases hrun
    exact ⟨hactive, hsc, le_refl _⟩
  rw [hactive] at hrun
  simp only [agePhase] at hrun
  split at hrun
  · cases hrun
  rename_i s2x heq
  cases hrun
  have hx : s2x.active = [] ∧ s2x.spawnChance = 0 ∧
      s2x.particleCount ≤ s.particleCount := by
    split at heq
    · obtain ⟨h1, h2, h3⟩ := spawnLoop_zero ctx δ _ _ _ _ hrng fuel _ s2x
        (by exact hsc) heq
      exact ⟨h1, h3, le_of_eq h2⟩
    · cases heq
      exact ⟨rfl, hsc, le_refl _⟩
  repeat' split
  all_goals first
    | exact ⟨hx.1, hx.2.1, hx.2.2⟩
    | exact ⟨rfl, hx.2.1, Nat.zero_le _⟩

theorem emitNowE_cap {σ : Type} (ctx : Ctx σ) (s : EmitterState σ)
    (h : s.particleCount ≤ s.maxParticles) :
    (emitNowE ctx s).particleCount ≤ (emitNowE ctx s).maxParticles := by
  have hspec := makeWaveNow_spec ctx s.spawnChance s.minLifetime s.maxLifetime
    (min s.particlesPerWave (s.maxParticles - s.particleCount)) s.pool
    s.particleCount s.rngIdx
  show (makeWaveNow _ _ _ _ _ _ _ _).2.2.1 ≤ s.maxParticles
  refine le_trans (le_of_eq hspec.1) ?_
  have hlen := le_trans hspec.2 (min_le_right s.particlesPerWave
    (s.maxParticles - s.particleCount))
  omega

theorem emitNowE_zero {σ : Type} (ctx : Ctx σ) (s : EmitterState σ)
    (hrng : ∀ k, 0 ≤ ctx.rng k) (hsc : s.spawnChance = 0) :
    (emitNowE ctx s).active = s.active ∧
    (emitNowE ctx s).particleCount = s.particleCount ∧
    (emitNowE ctx s).spawnChance = 0 := by
  refine ⟨?_, ?_, hsc⟩
  · show s.active ++ applyInits s.lateInitBehaviors
      ((applyInits s.spawnInitBehaviors (makeWaveNow ctx s.spawnChance s.minLifetime
        s.maxLifetime (min s.particlesPerWave (s.maxParticles - s.particleCount))
        s.pool s.particleCount s.rngIdx).1).map _) = s.active
    rw [hsc]
    simp only [makeWaveNow_zero ctx s.minLifetime s.maxLifetime hrng,
      applyInits_nil, List.map_nil, List.append_nil]
  · show (makeWaveNow ctx s.spawnChance s.minLifetime s.maxLifetime
      (min s.particlesPerWave (s.maxParticles - s.particleCount))
      s.pool s.particleCount s.rngIdx).2.2.1 = s.particleCount
    rw [hsc]
    simp only [makeWaveNow_zero ctx s.minLifetime s.maxLifetime hrng]

theorem runOps_cap {σ : Type} (ctx : Ctx σ) :
    ∀ (ops : List EmitterOp) (s s2 : EmitterState σ),
    s.particleCount ≤ s.maxParticles → runOps ctx ops s = some s2 →
    s2.particleCount ≤ s2.maxParticles
  | [], s, s2 => by
    intro h hrun
    cases hrun
    exact h
  | op :: rest, s, s2 => by
    intro h hrun
    rw [runOps] at hrun
    split at hrun
    · cases hrun
    rename_i s1 heq
    cases op with
    | tick δ fuel => exact runOps_cap ctx rest s1 s2 (updateE_cap ctx δ fuel s s1 h
        (by simpa [runOp] using heq)) hrun
    | burst =>
      have hs1 : s1 = emitNowE ctx s := by
        simpa [runOp] using heq.symm
      subst hs1
      exact runOps_cap ctx rest _ s2 (emitNowE_cap ctx s h) hrun

theorem runOps_zero {σ : Type} (ctx : Ctx σ) (hrng : ∀ k, 0 ≤ ctx.rng k) :
    ∀ (ops : List EmitterOp) (s s2 : EmitterState σ),
    s.spawnChance = 0 → s.active = [] → runOps ctx ops s = some s2 →
    s2.active = [] ∧ s2.spawnChance = 0
  | [], s, s2 => by
    intro hsc hactive hrun
    cases hrun
    exact ⟨hactive, hsc⟩
  | op :: rest, s, s2 => by
    intro hsc hactive hrun
    rw [runOps] at hrun
    split at hrun
    · cases hrun
    rename_i s1 heq
    cases op with
    | tick δ fuel =>
      obtain ⟨h1, h2, _⟩ := updateE_zero ctx δ fuel s s1 hrng hsc hactive
        (by simpa [runOp] using heq)
      exact runOps_zero ctx hrng rest s1 s2 h2 h1 hrun
    | burst =>
      have hs1 : s1 = emitNowE ctx s := by
        simpa [runOp] using heq.symm
      subst hs1
      obtain ⟨h1, _, h3⟩ := emitNowE_zero ctx s hrng hsc
      exact runOps_zero ctx hrng rest _ s2 h3 (h1.trans hactive) hrun

/-- C1: over every sequence of Emitter.update and Emitter.emitNow calls
that completes within its loop budget, the active particle count stays at
most maxParticles: both wave loops cap the wave size at maxParticles minus
the current count, and the update spawn loop skips a slot entirely at the
cap. -/
theorem claim1_particle_cap {σ : Type} (ctx : Ctx σ) (ops : List EmitterOp)
    (s s2 : EmitterState σ) (h : s.particleCount ≤ s.maxParticles)
    (hrun : runOps ctx ops s = some s2) :
    s2.particleCount ≤ s2.maxParticles :=
  runOps_cap ctx ops s s2 h hrun

theorem claim1_particle_cap_witness :
    emitterChanceZero.particleCount ≤ emitterChanceZero.maxParticles ∧
    (emitNowE unitCtx emitterChanceZero).particleCount ≤
      (emitNowE unitCtx emitterChanceZero).maxParticles :=
  ⟨by decide,
    claim1_particle_cap unitCtx [.burst] emitterChanceZero
      (emitNowE unitCtx emitterChanceZero) (by decide) rfl⟩

/-- C2 counterexample: the claim that a spawnChance configured as 0
prevents all spawning is false: Emitter.init requires spawnChance to be
greater than 0 and otherwise stores 1, so the emitter built from a
configuration with spawnChance 0 stores spawnChance 1, and one update of
one second spawns two particles. -/
theorem claim2_counterexample :
    cfgChanceZero.spawnChance = some 0 ∧
    emitterChanceZero.spawnChance = 1 ∧
    (updateE unitCtx 1 5 emitterChanceZero).map (fun s => s.particleCount) =
      some 2 := by
  refine ⟨rfl, by decide, ?_⟩
  set_option maxRecDepth 4000 in
  norm_num [updateE, agePhase, spawnLoop, makeWave, catchUp, applyInits,
    positionStep, applyInitB, runUB, applyEaseQ, setEmit, setFrequency,
    cleanupE, destroyE, initE, baseState, cfgChanceZero, emitterChanceZero,
    unitCtx, lifetimeDraw, poolTake]

/-- C2 amended: a configured spawnChance of 0 fails the greater-than-0
validation of Emitter.init and is stored as 1, so such an emitter does
spawn; it is a stored spawnChance of 0 (assigned to the public field,
with a nonnegative random stream) that guarantees the active list stays
empty over every sequence of update and emitNow calls. -/
theorem claim2_amended {σ : Type} (ctx : Ctx σ) (hrng : ∀ k, 0 ≤ ctx.rng k)
    (s0 : EmitterState σ) (cfg : ConfigE σ) (hcfg : cfg.spawnChance = some 0)
    (ops : List EmitterOp) (s s2 : EmitterState σ)
    (hsc : s.spawnChance = 0) (hactive : s.active = [])
    (hrun : runOps ctx ops s = some s2) :
    (initE s0 cfg).spawnChance = 1 ∧ s2.active = [] :=
  ⟨by simp [initE, setEmit, setFrequency, hcfg],
    (runOps_zero ctx hrng ops s s2 hsc hactive hrun).1⟩

theorem claim2_amended_witness :
    (initE (baseState Unit true) cfgChanceZero).spawnChance = 1 ∧
    (emitNowE unitCtx emitterStoredZero).active = [] :=
  claim2_amended unitCtx (fun k => by norm_num [unitCtx]) (baseState Unit true)
    cfgChanceZero rfl [.burst] emitterStoredZero
    (emitNowE unitCtx emitterStoredZero) rfl rfl rfl

/-- C3: during the aging phase each active particle ages by the delta and
survives exactly when its new age lies in the closed interval from 0 to
its lifetime (with no update behavior reporting a death): the surviving
age and lifetime pairs are exactly the aged pairs that pass the bound
check, so after every completed update every active particle satisfies
0 at most age at most maxLife. -/
theorem claim3_age_bounds {σ : Type} (ctx : Ctx σ) (ubs : List (UpdateB σ))
    (ce : Option (ℚ → ℚ)) (δ : ℚ)
    (hnd : ∀ b ∈ ubs, ∀ p dt, (b p dt).2 = false)
    (l : List (Particle σ)) (pool : List σ) (count : ℕ)
    (fuel : ℕ) (s s2 : EmitterState σ) (hp : s.parentExists = true)
    (hrun : updateE ctx δ fuel s = some s2) :
    ((agePhase ubs ce δ l pool count).1.map (fun p => (p.age, p.maxLife)) =
      (l.map (fun p => (p.age + δ, p.maxLife))).filter
        (fun q => decide (0 ≤ q.1) && decide (q.1 ≤ q.2))) ∧
    (∀ p ∈ s2.active, 0 ≤ p.age ∧ p.age ≤ p.maxLife) :=
  ⟨agePhase_filter ubs ce δ hnd l pool count,
    updateE_valid ctx δ fuel s s2 hp hrun⟩

theorem claim3_age_bounds_witness :
    ((agePhase ([] : List (UpdateB Unit)) none 1 [sampleParticle] [] 1).1.map
        (fun p => (p.age, p.maxLife)) =
      ([sampleParticle].map (fun p => (p.age + 1, p.maxLife))).filter
        (fun q => decide (0 ≤ q.1) && decide (q.1 ≤ q.2))) ∧
    (∀ p ∈ ((updateE unitCtx 1 0 (baseState Unit true)).getD
        (baseState Unit true)).active, 0 ≤ p.age ∧ p.age ≤ p.maxLife) :=
  claim3_age_bounds unitCtx [] none 1
    (fun b hb => absurd hb (List.not_mem_nil b)) [sampleParticle] [] 1 0
    (baseState Unit true) _ rfl rfl

/-- C7: upgradeConfig returns a configuration that already carries a
behaviors key unchanged, hence composing the upgrade with itself agrees
with one upgrade on every configuration, and the upgrade of the concrete
legacy configuration does succeed. -/
theorem claim7_upgrade_idempotent (c : UpgConfig) (art : UpgArt) :
    (∀ bs, c.behaviors = some bs → upgradeConfig c art = some c) ∧
    (upgradeConfig c art).bind (fun c2 => upgradeConfig c2 art) =
      upgradeConfig c art ∧
    (upgradeConfig legacyCfg UpgArt.textureSingle).isSome = true := by
  refine ⟨?_, ?_, rfl⟩
  · intro bs hbs
    simp only [upgradeConfig, hbs]
  · cases hb : c.behaviors with
    | some bs =>
      have h1 : upgradeConfig c art = some c := by
        simp only [upgradeConfig, hb]
      rw [h1, Option.some_bind, h1]
    | none =>
      simp only [upgradeConfig, hb]
      cases hm : upgMovement c with
      | none => rfl
      | some mv =>
        cases hs : upgSpawn c with
        | none => rfl
        | some sp =>
          simp only [Option.some_bind]

/-- C9: the frequency setter stores a positive number unchanged and turns
any other assignment (a non-number, modelled as none, or a non-positive
number) into 1, so the stored frequency is strictly positive after every
assignment, which gives the spawn loop of update a finite sufficient
budget. -/
theorem claim9_frequency_validation {σ : Type} (s : EmitterState σ)
    (v : Option ℚ) (ctx : Ctx σ) (δ pX pY cX cY : ℚ) :
    (∀ q, v = some q → 0 < q → (setFrequency s v).frequency = q) ∧
    (∀ q, v = some q → ¬0 < q → (setFrequency s v).frequency = 1) ∧
    (v = none → (setFrequency s v).frequency = 1) ∧
    0 < (setFrequency s v).frequency ∧
    ∃ fuel, (spawnLoop ctx δ pX pY cX cY fuel (setFrequency s v)).isSome
      = true := by
  have hpos : 0 < (setFrequency s v).frequency := by
    cases v with
    | none => norm_num [setFrequency]
    | some q =>
      by_cases hq : 0 < q
      · simp [setFrequency, hq]
      · simp [setFrequency, hq]
  refine ⟨?_, ?_, ?_, hpos, spawnLoop_terminates ctx δ pX pY cX cY _ hpos⟩
  · intro q hv hq
    subst hv
    simp [setFrequency, hq]
  · intro q hv hq
    subst hv
    simp [setFrequency, hq]
  · intro hv
    subst hv
    simp [setFrequency]

/-- C10: updating an emitter whose parent is absent returns the state
unchanged (no aging, no spawning, no recycling, no completion callback),
and destroy leaves the parent absent, so every update after destroy is
such a no-op. -/
theorem claim10_no_parent_noop {σ : Type} (ctx : Ctx σ) (δ : ℚ) (fuel : ℕ)
    (s : EmitterState σ) (h : s.parentExists = false) (t : EmitterState σ) :
    updateE ctx δ fuel s = some s ∧ (destroyE t).parentExists = false :=
  ⟨by rw [updateE, if_pos h], rfl⟩

theorem claim10_no_parent_noop_witness :
    updateE unitCtx 1 3 (baseState Unit false) = some (baseState Unit false) ∧
    (destroyE (baseState Unit true)).parentExists = false :=
  claim10_no_parent_noop unitCtx 1 3 (baseState Unit false) rfl
    (baseState Unit true)

end PE
